import Mathlib

/-!
The Spanner emulator benchmark harness (`src/app/main.go`).

A shallow embedding of the benchmark part of `main` (lines 45-83), of `must`
(lines 86-91) and of `BenchmarkInMS` (lines 93-107), followed by the properties
proved about them.

Everything the program obtains from outside is an explicit input: the readings of
the cancellation context, the results of `spanner.NewClient` and of the query, and
the clock readings are the fields of `Env`; the slice memory and the wrapped
`hrplot.Benchmark` are arguments of `BenchmarkInMS.Float64s`.  The `float64`
multiplication of line 104 is the IEEE 754 one, on values given by sign, mantissa
and exponent.  The provisioning
of the database and the CPU profile (lines 19-43) come before the benchmark and are
not part of the embedding.
-/

namespace SpannerEmu

/-! ## `must` -/

/-- A Go `error` value that is not nil. -/
structure Error where
  msg : String
deriving DecidableEq, Repr

/-- The generic `must[T any](v T, err error) T` of lines 86-91.  The Go `err` is
`Option Error` (`none` is nil); `panic(err)` is `Except.error err`, a normal return
of `v` is `Except.ok v`. -/
def must {T : Type} (v : T) (err : Option Error) : Except Error T :=
  match err with
  | some e => .error e
  | none => .ok v

/-! ## The stopwatch of `github.com/loov/hrtime` -/

/-- One slot of a stopwatch: the start timestamp and, once the lap has been
stopped, the stop timestamp. -/
structure Span where
  start : Int
  finish : Option Int
deriving DecidableEq, Repr

/-- Modelled from the spec: `hrtime.StopwatchTSC`, a type of an imported library
whose source is not in the repository.  Section 3 of the specification: an ordered
sequence of (start, stop) pairs whose capacity is fixed at construction.  `spans`
holds the slots reserved so far, in start order; the slots not reserved yet are
the `capacity - spans.length` remaining ones. -/
structure Stopwatch where
  capacity : Nat
  spans : List Span
deriving DecidableEq, Repr

/-- The failure of `new(capacity N)` for a capacity that is not positive. -/
inductive ConfigurationError
  | nonPositiveCapacity
deriving DecidableEq, Repr

/-- A stopwatch of the given capacity with no slot reserved. -/
def Stopwatch.empty (capacity : Nat) : Stopwatch := ⟨capacity, []⟩

/-- Modelled from the spec: `hrtime.NewStopwatchTSC` (section 4.1, `new(capacity N)`):
storage for exactly `count` samples, a configuration error if `count ≤ 0`. -/
def NewStopwatchTSC (count : Nat) : Except ConfigurationError Stopwatch :=
  if count = 0 then .error .nonPositiveCapacity else .ok (Stopwatch.empty count)

/-- Modelled from the spec: `StopwatchTSC.Start` (section 4.1, `start()`): records the
timestamp `now` in the next unused slot and returns the lap handle of that slot;
`none` when the capacity is exhausted. -/
def Stopwatch.Start (sw : Stopwatch) (now : Int) : Option (Nat × Stopwatch) :=
  if sw.spans.length < sw.capacity then
    some (sw.spans.length, { sw with spans := sw.spans ++ [⟨now, none⟩] })
  else none

/-- Modelled from the spec: `StopwatchTSC.Stop` (section 4.1, `stop(handle)`): records
the timestamp `now` against the slot of `lap`; `none` when `lap` is not the handle
of a started slot or when that slot has been stopped already. -/
def Stopwatch.Stop (sw : Stopwatch) (lap : Nat) (now : Int) : Option Stopwatch :=
  match sw.spans[lap]? with
  | some ⟨t, none⟩ => some { sw with spans := sw.spans.set lap ⟨t, some now⟩ }
  | _ => none

/-- Number of laps started on the stopwatch. -/
def Stopwatch.started (sw : Stopwatch) : Nat := sw.spans.length

/-- Number of completed (started-and-stopped) laps of the stopwatch. -/
def Stopwatch.completed (sw : Stopwatch) : Nat :=
  (sw.spans.filter (fun sp => sp.finish.isSome)).length

/-- Modelled from the spec: `elapsedDurations()` of section 4.1: stop minus start for
every completed slot, in start order; slots never stopped are left out. -/
def Stopwatch.elapsedDurations (sw : Stopwatch) : List Int :=
  sw.spans.filterMap (fun sp => sp.finish.map (fun f => f - sp.start))

/-! ## The benchmark loop of `main` -/

/-- The three stopwatches of `main` (lines 47-49). -/
inductive Phase
  | newClient
  | query
  | close
deriving DecidableEq, Repr

/-- A call that `main` makes on one of its stopwatches, with the lap handle that
`Start` returned or that was passed to `Stop`. -/
inductive Call
  | start (sw : Phase) (lap : Nat)
  | stop (sw : Phase) (lap : Nat)
deriving DecidableEq, Repr

/-- One line written by the `fmt.Printf` of line 77. -/
structure Progress where
  percent : Int
  last : Int
deriving DecidableEq, Repr

/-- What the benchmark reads from outside.  `cancelled k` is `ctx.Err() != nil` as
read by the check of line 52 in the iteration with index `k`; `newClient k` is the
pair `(client, err)` returned by `spanner.NewClient` in that iteration, a client
being identified by a number; `query c k` is the error returned by the query of
lines 64-67 run through client `c`; `clock n` is the `n`-th clock reading of the
run, in program order (`hrtime.Now()` and the timestamps taken by the
stopwatches). -/
structure Env where
  cancelled : Nat → Bool
  newClient : Nat → Nat × Option Error
  query : Nat → Nat → Option Error
  clock : Nat → Int

/-- The variables of `main` that the loop reads and writes, with the history of
what it has done: `ticks` counts the clock readings taken, `out` is what has been
printed, `calls` lists the stopwatch calls made, `reports` the calls of
`hrplot.All` (file name and wrapped stopwatch). -/
structure State where
  k : Nat
  newClient : Stopwatch
  query : Stopwatch
  close : Stopwatch
  ticks : Nat
  out : List Progress
  calls : List Call
  reports : List (String × Stopwatch)
deriving DecidableEq, Repr

/-- Why a run stopped with a panic. -/
inductive Abort
  | panic (err : Error)
  | stopwatch (sw : Phase)
  | divideByZero
deriving DecidableEq, Repr

/-- How the loop was left when no panic occurred: the condition `k < N` failed, or
the `break` of line 53 was taken. -/
inductive Exit
  | completed
  | cancelled
deriving DecidableEq, Repr

/-- Result of the benchmark: it went through the three `hrplot.All` calls after
leaving the loop, or it panicked in the state given, or the model ran out of
fuel. -/
inductive Outcome
  | finished (exit : Exit) (s : State)
  | aborted (why : Abort) (s : State)
  | outOfFuel
deriving DecidableEq, Repr

/-- A run: the states in which the loop head (line 51) was evaluated, in order, and
the outcome. -/
structure Run where
  heads : List State
  outcome : Outcome
deriving DecidableEq, Repr

/-- The stopwatch of a phase. -/
def State.stopwatch (s : State) : Phase → Stopwatch
  | .newClient => s.newClient
  | .query => s.query
  | .close => s.close

/-- Assignment to the stopwatch of a phase. -/
def State.setStopwatch (s : State) (p : Phase) (sw : Stopwatch) : State :=
  match p with
  | .newClient => { s with newClient := sw }
  | .query => { s with query := sw }
  | .close => { s with close := sw }

/-- Go `int` is 64 bits wide on the platforms of the program: the value of an
integer expression is reduced to the signed 64-bit range. -/
def wrapInt64 (x : Int) : Int := (x + 2 ^ 63) % 2 ^ 64 - 2 ^ 63

/-- The expression `k*100/N` of line 77: the product wraps, `/` truncates. -/
def percent (k N : Nat) : Int := Int.tdiv (wrapInt64 ((k : Int) * 100)) (N : Int)

/-- One clock reading. -/
def readClock (env : Env) (s : State) : Int × State :=
  (env.clock s.ticks, { s with ticks := s.ticks + 1 })

/-- A call `lap := sw.Start()`: the stopwatch takes a timestamp and hands out a
lap handle.  A `Start` outside the contract of the stopwatch stops the run. -/
def startLap (env : Env) (p : Phase) (s : State) : Except (Abort × State) (Nat × State) :=
  let (now, s1) := readClock env s
  match (s1.stopwatch p).Start now with
  | none => .error (.stopwatch p, s1)
  | some (lap, sw) =>
    .ok (lap, { s1.setStopwatch p sw with calls := s1.calls ++ [.start p lap] })

/-- A call `sw.Stop(lap)`. -/
def stopLap (env : Env) (p : Phase) (lap : Nat) (s : State) : Except (Abort × State) State :=
  let (now, s1) := readClock env s
  match (s1.stopwatch p).Stop lap now with
  | none => .error (.stopwatch p, { s1 with calls := s1.calls ++ [.stop p lap] })
  | some sw => .ok { s1.setStopwatch p sw with calls := s1.calls ++ [.stop p lap] }

/-- The body of the loop after the cancellation check, lines 56-78, for a trial
count `N` (10000 in the source) and a progress cadence `K` (100 in the source).
An error carries the state in which the panic occurred.  `client.Close()` of line 71
returns nothing that the program looks at and leaves the state alone; an integer
division by zero is a run-time panic. -/
def trial (env : Env) (N K : Nat) (s : State) : Except (Abort × State) State := do
  -- line 56: start := hrtime.Now()
  let (start, s) := readClock env s
  -- lines 58-60
  let (lap, s) ← startLap env .newClient s
  let client ← (must (env.newClient s.k).1 (env.newClient s.k).2).mapError
    (fun e => (Abort.panic e, s))
  let s ← stopLap env .newClient lap s
  -- lines 62-68
  let (lap, s) ← startLap env .query s
  let _ ← (must (0 : Int) (env.query client s.k)).mapError (fun e => (Abort.panic e, s))
  let s ← stopLap env .query lap s
  -- lines 70-72
  let (lap, s) ← startLap env .close s
  let s ← stopLap env .close lap s
  -- line 74: finish := hrtime.Now()
  let (finish, s) := readClock env s
  -- lines 76-78
  if K = 0 then
    .error (Abort.divideByZero, s)
  else if s.k % K = 0 then
    if N = 0 then
      .error (Abort.divideByZero, s)
    else
      .ok { s with out := s.out ++ [⟨percent s.k N, wrapInt64 (finish - start)⟩] }
  else
    .ok s

/-- The three calls of `hrplot.All`, lines 81-83. -/
def report (s : State) : State :=
  { s with reports := s.reports ++
      [("new-client.svg", s.newClient), ("query.svg", s.query), ("close.svg", s.close)] }

/-- The `for` statement of lines 51-79 followed by the reporting of lines 81-83.
Each unit of fuel pays for one evaluation of the loop head. -/
def loop (env : Env) (N K : Nat) : Nat → State → Run
  | 0, _ => ⟨[], .outOfFuel⟩
  | fuel + 1, s =>
    if s.k < N then
      if env.cancelled s.k then
        ⟨[s], .finished .cancelled (report s)⟩
      else
        match trial env N K s with
        | .error (why, s1) => ⟨[s], .aborted why s1⟩
        | .ok s1 =>
          let r := loop env N K fuel { s1 with k := s1.k + 1 }
          ⟨s :: r.heads, r.outcome⟩
    else
      ⟨[s], .finished .completed (report s)⟩

/-- The state in which the loop is entered, `k := 0`. -/
def State.initial (newClient query close : Stopwatch) : State :=
  ⟨0, newClient, query, close, 0, [], [], []⟩

/-- Lines 51-83 run on three given stopwatches. -/
def benchmark (env : Env) (N K : Nat) (newClient query close : Stopwatch) : Run :=
  loop env N K (N + 1) (State.initial newClient query close)

/-- Lines 45-83 of `main` for a trial count `N` and a progress cadence `K`: the
three stopwatches are constructed, then the loop and the reporting run. -/
def main (env : Env) (N K : Nat) : Except ConfigurationError Run := do
  let newClient ← NewStopwatchTSC N
  let query ← NewStopwatchTSC N
  let close ← NewStopwatchTSC N
  pure (benchmark env N K newClient query close)

/-- The constant `N` of line 45. -/
def trialCount : Nat := 10000

/-- The literal of the progress test `k%100 == 0` of line 76. -/
def progressEvery : Nat := 100

/-- The benchmark with the constants of the source. -/
def mainProgram (env : Env) : Except ConfigurationError Run :=
  main env trialCount progressEvery

/-! ## One trial, step by step -/

/-- The stopwatch after a lap has been started at `a`. -/
def Stopwatch.lapOpen (sw : Stopwatch) (a : Int) : Stopwatch :=
  { sw with spans := sw.spans ++ [⟨a, none⟩] }

/-- The stopwatch after a lap started at `a` has been stopped at `b`. -/
def Stopwatch.lapDone (sw : Stopwatch) (a b : Int) : Stopwatch :=
  { sw with spans := sw.spans ++ [⟨a, some b⟩] }

/-- State of a trial entered in `s` at the call of `spanner.NewClient`. -/
def atAcquire (env : Env) (s : State) : State :=
  { s with
    ticks := s.ticks + 2
    newClient := s.newClient.lapOpen (env.clock (s.ticks + 1))
    calls := s.calls ++ [.start .newClient s.newClient.spans.length] }

/-- State of a trial entered in `s` at the call of the query. -/
def atQuery (env : Env) (s : State) : State :=
  { s with
    ticks := s.ticks + 4
    newClient := s.newClient.lapDone (env.clock (s.ticks + 1)) (env.clock (s.ticks + 2))
    query := s.query.lapOpen (env.clock (s.ticks + 3))
    calls := s.calls ++ [.start .newClient s.newClient.spans.length,
      .stop .newClient s.newClient.spans.length, .start .query s.query.spans.length] }

/-- State of a trial entered in `s` after `finish := hrtime.Now()`. -/
def atFinish (env : Env) (s : State) : State :=
  { s with
    ticks := s.ticks + 8
    newClient := s.newClient.lapDone (env.clock (s.ticks + 1)) (env.clock (s.ticks + 2))
    query := s.query.lapDone (env.clock (s.ticks + 3)) (env.clock (s.ticks + 4))
    close := s.close.lapDone (env.clock (s.ticks + 5)) (env.clock (s.ticks + 6))
    calls := s.calls ++ [.start .newClient s.newClient.spans.length,
      .stop .newClient s.newClient.spans.length, .start .query s.query.spans.length,
      .stop .query s.query.spans.length, .start .close s.close.spans.length,
      .stop .close s.close.spans.length] }

/-- The progress line of a trial entered in `s`. -/
def progressLine (env : Env) (N : Nat) (s : State) : Progress :=
  ⟨percent s.k N, wrapInt64 (env.clock (s.ticks + 7) - env.clock s.ticks)⟩

/-- The loop head reached from the loop head `s` when the trial entered in `s`
succeeds: the state after line 78 with `k++` applied. -/
def nextHead (env : Env) (N K : Nat) (s : State) : State :=
  { atFinish env s with
    out := if s.k % K = 0 then s.out ++ [progressLine env N s] else s.out
    k := s.k + 1 }

/-- The loop head with index `i` of a run of `main` in which the first `i` trials
succeed. -/
def headAt (env : Env) (N K : Nat) : Nat → State
  | 0 => State.initial (Stopwatch.empty N) (Stopwatch.empty N) (Stopwatch.empty N)
  | i + 1 => nextHead env N K (headAt env N K i)

/-- Trial `j` meets no failure: `spanner.NewClient` and the query both return a nil
error. -/
def Env.succeeds (env : Env) (j : Nat) : Prop :=
  (env.newClient j).2 = none ∧ env.query (env.newClient j).1 j = none

/-- The progress lines printed by the trials `0, ..., k-1`: trial `j` prints if and
only if `j % K = 0`, and then it prints the percentage `j*100/N` and the duration
between its two `hrtime.Now()` readings, the `8*j`-th and the `8*j+7`-th of
the run. -/
def progressLog (env : Env) (N K k : Nat) : List Progress :=
  ((List.range k).filter (fun j => j % K = 0)).map
    (fun j => ⟨percent j N, wrapInt64 (env.clock (8 * j + 7) - env.clock (8 * j))⟩)

/-! ## The lap protocol of one stopwatch -/

/-- One step of the lap protocol of stopwatch `p`.  The protocol state is `none`
once the protocol has been broken, `some none` when no lap is in flight, and
`some (some h)` when the lap with handle `h` has been started and not stopped.
A `Start` needs that no lap is in flight; a `Stop` needs that its argument is the
handle of the lap in flight.  Calls on the other stopwatches do not count. -/
def lapStep (p : Phase) : Option (Option Nat) → Call → Option (Option Nat)
  | none, _ => none
  | some inFlight, .start q lap =>
    if q = p then (match inFlight with
      | none => some (some lap)
      | some _ => none)
    else some inFlight
  | some inFlight, .stop q lap =>
    if q = p then (if inFlight = some lap then some none else none)
    else some inFlight

/-- The protocol state of stopwatch `p` after the given calls. -/
def lapState (p : Phase) (calls : List Call) : Option (Option Nat) :=
  calls.foldl (lapStep p) (some none)

/-- The calls respect the lap protocol of stopwatch `p`: each `Stop` is passed the
handle of the latest `Start`, and no `Start` occurs while a lap is in flight. -/
def lapsInOrder (p : Phase) (calls : List Call) : Bool := (lapState p calls).isSome

/-- The lap handles returned by the `Start` calls on stopwatch `p`, in call order. -/
def startHandles (p : Phase) (calls : List Call) : List Nat :=
  calls.filterMap (fun c =>
    match c with
    | .start q lap => if q = p then some lap else none
    | .stop _ _ => none)

/-- The lap handles passed to the `Stop` calls on stopwatch `p`, in call order. -/
def stopHandles (p : Phase) (calls : List Call) : List Nat :=
  calls.filterMap (fun c =>
    match c with
    | .start _ _ => none
    | .stop q lap => if q = p then some lap else none)

/-- Number of `Start` calls on stopwatch `p`. -/
def startCount (p : Phase) (calls : List Call) : Nat := (startHandles p calls).length

/-- Number of `Stop` calls on stopwatch `p`. -/
def stopCount (p : Phase) (calls : List Call) : Nat := (stopHandles p calls).length

/-- The invariant of the loop head, for a loop entered with three empty
stopwatches of capacity `N`. -/
structure HeadInv (env : Env) (N K : Nat) (s : State) : Prop where
  le : s.k ≤ N
  cap : ∀ p, (s.stopwatch p).capacity = N
  started : ∀ p, (s.stopwatch p).started = s.k
  completed : ∀ p, (s.stopwatch p).completed = s.k
  idle : ∀ p, lapState p s.calls = some none
  issued : ∀ p, startHandles p s.calls = List.range s.k
  consumed : ∀ p, stopHandles p s.calls = List.range s.k
  ticks : s.ticks = 8 * s.k
  out : s.out = progressLog env N K s.k
  reports : s.reports = []

/-- The state in which a run ended, if it ended. -/
def Outcome.state : Outcome → Option State
  | .finished _ s => some s
  | .aborted _ s => some s
  | .outOfFuel => none

/-- The calls respect the lap discipline of every stopwatch: the protocol holds,
the handles issued by `Start` are `0, 1, 2, ...` in this order, the handles passed
to `Stop` are `0, 1, 2, ...` in this order, no more laps have been stopped than
started, and no more than `N` laps have been started. -/
def CallsOK (N : Nat) (calls : List Call) : Prop :=
  ∀ p, lapsInOrder p calls = true ∧
    startHandles p calls = List.range (startCount p calls) ∧
    stopHandles p calls = List.range (stopCount p calls) ∧
    stopCount p calls ≤ startCount p calls ∧
    startCount p calls ≤ N

/-! ## Concrete environments -/

/-- An environment in which nothing is cancelled and nothing fails; the `n`-th
clock reading is `n`. -/
def envQuiet : Env := ⟨fun _ => false, fun k => (k, none), fun _ _ => none, fun n => n⟩

/-- The quiet environment with the cancellation signal set from the check with
index `c` on. -/
def envCancelFrom (c : Nat) : Env := { envQuiet with cancelled := fun k => decide (c ≤ k) }

/-- The quiet environment with `spanner.NewClient` failing in trial `j`. -/
def envAcquireFails (j : Nat) : Env :=
  { envQuiet with
    newClient := fun k => if k = j then (0, some ⟨"connect failed"⟩) else (k, none) }

/-- The quiet environment with the query failing in trial `j`. -/
def envQueryFails (j : Nat) : Env :=
  { envQuiet with query := fun _ k => if k = j then some ⟨"query failed"⟩ else none }

/-! ## The type `float64` -/

/-- A value of the Go type `float64`, IEEE 754 binary64: a NaN, an infinity with
its sign, or the number `(-1)^neg * mant * 2^exp`.  The values a `float64` can hold
are the canonical ones, `mant < 2^53` and `-1074 ≤ exp ≤ 971` with `2^52 ≤ mant`
unless `exp = -1074`; the payload of a NaN is not represented. -/
inductive Float64
  | nan
  | inf (neg : Bool)
  | finite (neg : Bool) (mant : Nat) (exp : Int)
deriving DecidableEq, Repr

/-- Number of binary digits of `n`, with `fuel` bounding the number of halvings. -/
def bitLengthAux : Nat → Nat → Nat
  | 0, _ => 0
  | fuel + 1, n => if n = 0 then 0 else bitLengthAux fuel (n / 2) + 1

/-- Number of binary digits of `n` (`0` for `n = 0`). -/
def bitLength (n : Nat) : Nat := bitLengthAux n n

/-- The quotient `M / 2^sh` rounded to nearest, ties to even. -/
def roundShift (M sh : Nat) : Nat :=
  if 2 ^ (sh - 1) < M % 2 ^ sh ∨ (M % 2 ^ sh = 2 ^ (sh - 1) ∧ (M / 2 ^ sh) % 2 = 1) then
    M / 2 ^ sh + 1
  else M / 2 ^ sh

/-- The `float64` nearest to `(-1)^neg * M * 2^E`, ties to even (the IEEE 754 default
rounding, the one Go uses): the exponent is that of a 53-bit mantissa and at least
`-1074`, the mantissa is rounded to it, and a magnitude of `2^1024` or more after
rounding is an infinity. -/
def Float64.round (neg : Bool) (M : Nat) (E : Int) : Float64 :=
  if M = 0 then .finite neg 0 (-1074)
  else
    let e : Int := max ((bitLength M : Int) - 1 + E - 52) (-1074)
    let m : Nat := if e ≤ E then M * 2 ^ (E - e).toNat else roundShift M (e - E).toNat
    if m = 2 ^ 53 then
      (if 971 < e + 1 then .inf neg else .finite neg (2 ^ 52) (e + 1))
    else if 971 < e then .inf neg
    else .finite neg m e

/-- The `float64` product `x * y`: the exact product rounded to nearest; a NaN
operand, or zero times infinity, gives a NaN. -/
def Float64.mul : Float64 → Float64 → Float64
  | .nan, _ => .nan
  | _, .nan => .nan
  | .inf s, .inf t => .inf (xor s t)
  | .inf s, .finite t m _ => if m = 0 then .nan else .inf (xor s t)
  | .finite s m _, .inf t => if m = 0 then .nan else .inf (xor s t)
  | .finite s m e, .finite t n f => Float64.round (xor s t) (m * n) (e + f)

/-- The `float64` with the given 64-bit pattern (what `math.Float64frombits`
returns): sign bit, 11 exponent bits, 52 fraction bits. -/
def Float64.ofBits (b : Nat) : Float64 :=
  if b / 2 ^ 52 % 2048 = 2047 then
    (if b % 2 ^ 52 = 0 then .inf (decide (b / 2 ^ 63 % 2 = 1)) else .nan)
  else if b / 2 ^ 52 % 2048 = 0 then .finite (decide (b / 2 ^ 63 % 2 = 1)) (b % 2 ^ 52) (-1074)
  else .finite (decide (b / 2 ^ 63 % 2 = 1)) (2 ^ 52 + b % 2 ^ 52) ((b / 2 ^ 52 % 2048 : Nat) - 1075)

/-- The constant `1e-6` of line 104 as a `float64`: the `float64` nearest to one
millionth, `4722366482869645 * 2^(-72)`, bit pattern `0x3EB0C6F7A0B5ED8D`. -/
def Float64.oneMillionth : Float64 := .finite false 4722366482869645 (-72)

/-- The rational number that a finite `float64` stands for. -/
def Float64.value : Float64 → Option ℚ
  | .finite s m e => some ((if s then -1 else 1) * (m : ℚ) * 2 ^ e)
  | _ => none

/-- Half the distance between a finite `float64` and its neighbour of the same
exponent. -/
def Float64.halfUlp : Float64 → ℚ
  | .finite _ _ e => 2 ^ (e - 1)
  | _ => 0

/-! ## `BenchmarkInMS` -/

/-- The two `float64` ingredients of line 104, over a type `F` of sample values:
the multiplication and the constant.  The program's own instance is `float64Ops`,
the IEEE 754 multiplication and the `float64` constant `1e-6`; the frame
properties of `BenchmarkInMS.Float64s` do not depend on the instance. -/
structure Float64Ops (F : Type) where
  mul : F → F → F
  scale : F

/-- The memory holding `float64` cells, by address. -/
abbrev Memory (F : Type) := Nat → F

/-- A Go slice of `float64`: the address of its first element and its length. -/
structure Slice where
  ptr : Nat
  len : Nat
deriving DecidableEq, Repr

/-- The elements of a slice, in index order. -/
def Slice.read {F : Type} (rs : Slice) (m : Memory F) : List F :=
  (List.range rs.len).map (fun i => m (rs.ptr + i))

/-- Whether an address is that of an element of the slice. -/
def Slice.covers (rs : Slice) (a : Nat) : Prop := rs.ptr ≤ a ∧ a < rs.ptr + rs.len

/-- A value of the interface type `hrplot.Benchmark`, as far as `BenchmarkInMS`
uses it: its method `Float64s`, which runs on the state `σ` of the implementation
and on the memory, and returns a slice. -/
structure Benchmark (F σ : Type) where
  Float64s : σ → Memory F → Slice × σ × Memory F

/-- The values of the slice returned by a call, read in the memory the call left. -/
def returned {F σ : Type} (r : Slice × σ × Memory F) : List F := r.1.read r.2.2

/-- The method `Unit` of `BenchmarkInMS`, lines 97-99. -/
def BenchmarkInMS.Unit : String := "ms"

/-- The statement `rs[i] *= 1e-6` of line 104. -/
def scaleAt {F : Type} (ops : Float64Ops F) (rs : Slice) (m : Memory F) (i : Nat) : Memory F :=
  Function.update m (rs.ptr + i) (ops.mul (m (rs.ptr + i)) ops.scale)

/-- The method `Float64s` of `BenchmarkInMS`, lines 101-107, for the wrapped
benchmark `b`: the slice returned by `b.Benchmark.Float64s()` is scaled in place,
element by element in index order, and returned. -/
def BenchmarkInMS.Float64s {F σ : Type} (ops : Float64Ops F) (b : Benchmark F σ)
    (st : σ) (m : Memory F) : Slice × σ × Memory F :=
  let (rs, st1, m1) := b.Float64s st m
  (rs, st1, (List.range rs.len).foldl (scaleAt ops rs) m1)

/-- The wrapped benchmark keeps no reference to the slice it returns: what its next
call returns does not depend on what has been written into that slice since. -/
def Benchmark.HandsOutCopy {F σ : Type} (b : Benchmark F σ) : Prop :=
  ∀ (st : σ) (m m2 : Memory F),
    (∀ a, ¬ (b.Float64s st m).1.covers a → m2 a = (b.Float64s st m).2.2 a) →
    returned (b.Float64s (b.Float64s st m).2.1 m2) =
      returned (b.Float64s (b.Float64s st m).2.1 (b.Float64s st m).2.2)

/-- The wrapped benchmark returns its recorded samples again when asked again. -/
def Benchmark.Repeatable {F σ : Type} (b : Benchmark F σ) : Prop :=
  ∀ (st : σ) (m : Memory F),
    returned (b.Float64s (b.Float64s st m).2.1 (b.Float64s st m).2.2) =
      returned (b.Float64s st m)

/-- Exact rational arithmetic with the scale factor one millionth, a stand-in for
`float64` on inputs on which no rounding occurs. -/
def exactOps : Float64Ops ℚ := ⟨fun x y => x * y, 1 / 1000000⟩

/-- A benchmark that returns its own storage: the slice of length `n` at address
`0`, without touching the memory. -/
def ownStorage (n : Nat) : Benchmark ℚ Unit := ⟨fun st m => (⟨0, n⟩, st, m)⟩

/-- A benchmark that copies its recorded samples, its state, into the cells from
address `0` on at each call and returns that slice. -/
def copiesSamples : Benchmark ℚ (List ℚ) :=
  ⟨fun st m => (⟨0, st.length⟩, st, fun a => st.getD a (m a))⟩

/-- The operations of the program: `rs[i] *= 1e-6` multiplies in `float64` by
the `float64` constant `1e-6`. -/
def float64Ops : Float64Ops Float64 := ⟨Float64.mul, Float64.oneMillionth⟩

/-- A benchmark over `float64` that copies its recorded samples, its state, into
the cells from address `0` on at each call and returns that slice. -/
def copiesFloat64s : Benchmark Float64 (List Float64) :=
  ⟨fun st m => (⟨0, st.length⟩, st, fun a => st.getD a (m a))⟩

/-! # Properties -/

theorem Stopwatch.Start_eq (sw : Stopwatch) (a : Int) (h : sw.spans.length < sw.capacity) :
    sw.Start a = some (sw.spans.length, sw.lapOpen a) := by
  simp [Stopwatch.Start, Stopwatch.lapOpen, h]

theorem Stopwatch.Stop_lapOpen (sw : Stopwatch) (a b : Int) :
    (sw.lapOpen a).Stop sw.spans.length b = some (sw.lapDone a b) := by
  simp [Stopwatch.Stop, Stopwatch.lapOpen, Stopwatch.lapDone]

theorem trial_eq (env : Env) (N K : Nat) (s : State)
    (h1 : s.newClient.spans.length < s.newClient.capacity)
    (h2 : s.query.spans.length < s.query.capacity)
    (h3 : s.close.spans.length < s.close.capacity) :
    trial env N K s =
      match (env.newClient s.k).2 with
      | some e => .error (.panic e, atAcquire env s)
      | none =>
        match env.query (env.newClient s.k).1 s.k with
        | some e => .error (.panic e, atQuery env s)
        | none =>
          if K = 0 then .error (.divideByZero, atFinish env s)
          else if s.k % K = 0 then
            if N = 0 then .error (.divideByZero, atFinish env s)
            else .ok { atFinish env s with out := s.out ++ [progressLine env N s] }
          else .ok (atFinish env s) := by
  cases hA : (env.newClient s.k).2 with
  | some e =>
    simp [trial, startLap, stopLap, readClock, State.stopwatch, State.setStopwatch,
      Stopwatch.Start, Stopwatch.Stop, h1, h2, h3, must, Except.mapError, bind, Except.bind,
      atAcquire, atQuery, atFinish, Stopwatch.lapOpen, Stopwatch.lapDone, progressLine, hA]
  | none =>
    cases hQ : env.query (env.newClient s.k).1 s.k with
    | some e =>
      simp [trial, startLap, stopLap, readClock, State.stopwatch, State.setStopwatch,
        Stopwatch.Start, Stopwatch.Stop, h1, h2, h3, must, Except.mapError, bind, Except.bind,
        atAcquire, atQuery, atFinish, Stopwatch.lapOpen, Stopwatch.lapDone, progressLine, hA, hQ]
    | none =>
      simp [trial, startLap, stopLap, readClock, State.stopwatch, State.setStopwatch,
        Stopwatch.Start, Stopwatch.Stop, h1, h2, h3, must, Except.mapError, bind, Except.bind,
        atAcquire, atQuery, atFinish, Stopwatch.lapOpen, Stopwatch.lapDone, progressLine, hA, hQ]

theorem headInv_initial (env : Env) (N K : Nat) :
    HeadInv env N K (State.initial (Stopwatch.empty N) (Stopwatch.empty N) (Stopwatch.empty N)) := by
  constructor <;> first
    | (intro p; cases p <;> rfl)
    | simp [State.initial, progressLog]

theorem headInv_nextHead (env : Env) (N K : Nat) (s : State) (h : HeadInv env N K s)
    (hk : s.k < N) : HeadInv env N K (nextHead env N K s) := by
  have hs := h.started
  have hc := h.completed
  have hcap := h.cap
  have hi := h.idle
  have hst := h.issued
  have hsp := h.consumed
  constructor
  · show s.k + 1 ≤ N
    omega
  · intro p
    have := hcap p
    cases p <;> simpa [nextHead, atFinish, State.stopwatch, Stopwatch.lapDone] using this
  · intro p
    have := hs p
    cases p <;>
      simpa [nextHead, atFinish, State.stopwatch, Stopwatch.lapDone, Stopwatch.started] using this
  · intro p
    have := hc p
    cases p <;>
      simpa [nextHead, atFinish, State.stopwatch, Stopwatch.lapDone, Stopwatch.completed,
        List.filter_append] using this
  · intro p
    have := hi p
    simp only [lapState] at this
    cases p <;>
      simp [nextHead, atFinish, lapState, List.foldl_append, this, lapStep]
  · intro p
    have := hst p
    have l1 := hs .newClient
    have l2 := hs .query
    have l3 := hs .close
    simp only [Stopwatch.started, State.stopwatch] at l1 l2 l3
    cases p <;>
      simp [nextHead, atFinish, startHandles, List.filterMap_append, List.range_succ, l1, l2, l3]
        <;> simpa [startHandles] using this
  · intro p
    have := hsp p
    have l1 := hs .newClient
    have l2 := hs .query
    have l3 := hs .close
    simp only [Stopwatch.started, State.stopwatch] at l1 l2 l3
    cases p <;>
      simp [nextHead, atFinish, stopHandles, List.filterMap_append, List.range_succ, l1, l2, l3]
        <;> simpa [stopHandles] using this
  · have := h.ticks
    simp [nextHead, atFinish, this]
    omega
  · have ho := h.out
    have ht := h.ticks
    simp only [nextHead, atFinish, progressLog, List.range_succ, List.filter_append,
      List.map_append, ho, progressLine, ht]
    by_cases hm : s.k % K = 0 <;> simp [hm, progressLog]
  · simpa [nextHead, atFinish] using h.reports

theorem HeadInv.room (env : Env) (N K : Nat) (s : State) (h : HeadInv env N K s)
    (hk : s.k < N) (p : Phase) :
    (s.stopwatch p).spans.length < (s.stopwatch p).capacity := by
  have h1 := h.started p
  have h2 := h.cap p
  simp only [Stopwatch.started] at h1
  omega

theorem loop_step (env : Env) (N K fuel : Nat) (s : State) (h : HeadInv env N K s)
    (hk : s.k < N) :
    loop env N K (fuel + 1) s =
      if env.cancelled s.k then ⟨[s], .finished .cancelled (report s)⟩
      else
        match (env.newClient s.k).2 with
        | some e => ⟨[s], .aborted (.panic e) (atAcquire env s)⟩
        | none =>
          match env.query (env.newClient s.k).1 s.k with
          | some e => ⟨[s], .aborted (.panic e) (atQuery env s)⟩
          | none =>
            if K = 0 then ⟨[s], .aborted .divideByZero (atFinish env s)⟩
            else ⟨s :: (loop env N K fuel (nextHead env N K s)).heads,
              (loop env N K fuel (nextHead env N K s)).outcome⟩ := by
  have hN : N ≠ 0 := by omega
  rw [loop, if_pos hk, trial_eq env N K s (h.room env N K s hk .newClient)
    (h.room env N K s hk .query) (h.room env N K s hk .close)]
  by_cases hc : env.cancelled s.k
  · simp [hc]
  · simp only [hc, Bool.false_eq_true, if_false]
    cases hA : (env.newClient s.k).2 with
    | some e => simp
    | none =>
      cases hQ : env.query (env.newClient s.k).1 s.k with
      | some e => simp
      | none =>
        by_cases hK : K = 0
        · simp [hK]
        · have e1 : (atFinish env s).k = s.k := rfl
          have e2 : (atFinish env s).out = s.out := rfl
          by_cases hm : s.k % K = 0 <;> simp [hK, hm, hN, nextHead, e1, e2]

theorem loop_exit (env : Env) (N K fuel : Nat) (s : State) (hk : ¬ s.k < N) :
    loop env N K (fuel + 1) s = ⟨[s], .finished .completed (report s)⟩ := by
  rw [loop, if_neg hk]

/-- How a run can end.  `h` is the loop head at which the run left the loop. -/
theorem loop_cases (env : Env) (N K : Nat) :
    ∀ (fuel : Nat) (s : State), HeadInv env N K s → N - s.k < fuel →
      (∀ h ∈ (loop env N K fuel s).heads, HeadInv env N K h) ∧
      ∃ h, HeadInv env N K h ∧ h ∈ (loop env N K fuel s).heads ∧
        ((h.k = N ∧ (loop env N K fuel s).outcome = .finished .completed (report h)) ∨
         (h.k < N ∧ env.cancelled h.k = true ∧
            (loop env N K fuel s).outcome = .finished .cancelled (report h)) ∨
         (h.k < N ∧ ∃ e, (env.newClient h.k).2 = some e ∧
            (loop env N K fuel s).outcome = .aborted (.panic e) (atAcquire env h)) ∨
         (h.k < N ∧ (env.newClient h.k).2 = none ∧
            ∃ e, env.query (env.newClient h.k).1 h.k = some e ∧
            (loop env N K fuel s).outcome = .aborted (.panic e) (atQuery env h)) ∨
         (h.k < N ∧ K = 0 ∧
            (loop env N K fuel s).outcome = .aborted .divideByZero (atFinish env h))) := by
  intro fuel
  induction fuel with
  | zero => intro s _ hf; omega
  | succ fuel ih =>
    intro s hs hf
    by_cases hk : s.k < N
    · rw [loop_step env N K fuel s hs hk]
      by_cases hc : env.cancelled s.k
      · simp only [hc, if_true]
        exact ⟨by simpa using hs, s, hs, by simp, Or.inr (Or.inl ⟨hk, hc, rfl⟩)⟩
      · simp only [hc, Bool.false_eq_true, if_false]
        cases hA : (env.newClient s.k).2 with
        | some e =>
          exact ⟨by simpa using hs, s, hs, by simp,
            Or.inr (Or.inr (Or.inl ⟨hk, e, hA, rfl⟩))⟩
        | none =>
          cases hQ : env.query (env.newClient s.k).1 s.k with
          | some e =>
            exact ⟨by simpa using hs, s, hs, by simp,
              Or.inr (Or.inr (Or.inr (Or.inl ⟨hk, hA, e, hQ, rfl⟩)))⟩
          | none =>
            by_cases hK : K = 0
            · simp only [if_pos hK]
              exact ⟨by simpa using hs, s, hs, by simp,
                Or.inr (Or.inr (Or.inr (Or.inr ⟨hk, hK, rfl⟩)))⟩
            · simp only [if_neg hK]
              have hn := headInv_nextHead env N K s hs hk
              have hf2 : N - (nextHead env N K s).k < fuel := by
                have : (nextHead env N K s).k = s.k + 1 := rfl
                omega
              obtain ⟨hall, h, hh, hmem, hcase⟩ := ih (nextHead env N K s) hn hf2
              refine ⟨?_, h, hh, List.mem_cons_of_mem _ hmem, hcase⟩
              intro x hx
              rcases List.mem_cons.mp hx with rfl | hx
              · exact hs
              · exact hall x hx
    · rw [loop_exit env N K fuel s hk]
      have := hs.le
      exact ⟨by simpa using hs, s, hs, by simp, Or.inl ⟨by omega, rfl⟩⟩

theorem headAt_k (env : Env) (N K : Nat) : ∀ i, (headAt env N K i).k = i
  | 0 => rfl
  | i + 1 => by
    show (headAt env N K i).k + 1 = i + 1
    rw [headAt_k env N K i]

theorem headInv_headAt (env : Env) (N K : Nat) :
    ∀ i, i ≤ N → HeadInv env N K (headAt env N K i)
  | 0, _ => headInv_initial env N K
  | i + 1, hi => by
    have ih := headInv_headAt env N K i (by omega)
    exact headInv_nextHead env N K _ ih (by rw [headAt_k]; omega)

/-- Trials that are neither cancelled nor failing take the loop from head `i` to
head `i + d`. -/
theorem loop_run (env : Env) (N K : Nat) (hK : 0 < K) :
    ∀ (d i fuel : Nat), i + d ≤ N →
      (∀ j, i ≤ j → j < i + d → env.cancelled j = false ∧ env.succeeds j) →
      loop env N K (fuel + d) (headAt env N K i) =
        ⟨(List.range' i d).map (headAt env N K) ++
            (loop env N K fuel (headAt env N K (i + d))).heads,
          (loop env N K fuel (headAt env N K (i + d))).outcome⟩ := by
  intro d
  induction d with
  | zero => intro i fuel _ _; simp
  | succ d ih =>
    intro i fuel hle hyp
    have hinv := headInv_headAt env N K i (by omega)
    have hki : (headAt env N K i).k = i := headAt_k env N K i
    obtain ⟨hc, hA, hQ⟩ := hyp i (le_refl i) (by omega)
    have hstep := loop_step env N K (fuel + d) (headAt env N K i) hinv (by rw [hki]; omega)
    rw [hki] at hstep
    have hK0 : K ≠ 0 := by omega
    simp only [hc, hA, hQ, Bool.false_eq_true, if_false, if_neg hK0] at hstep
    have hnext : nextHead env N K (headAt env N K i) = headAt env N K (i + 1) := rfl
    rw [hnext, ih (i + 1) fuel (by omega) (fun j h1 h2 => hyp j (by omega) (by omega))] at hstep
    rw [show fuel + (d + 1) = fuel + d + 1 from rfl, hstep]
    simp [List.range', Nat.add_assoc, Nat.add_comm 1 d]

/-- The run of the benchmark when the first `c` trials are neither cancelled nor
failing: the loop heads `0, ..., c-1` are passed, and the rest of the run is that
of the loop entered at head `c`. -/
theorem benchmark_run (env : Env) (N K c : Nat) (hK : 0 < K) (hc : c ≤ N)
    (hyp : ∀ j, j < c → env.cancelled j = false ∧ env.succeeds j) :
    benchmark env N K (Stopwatch.empty N) (Stopwatch.empty N) (Stopwatch.empty N) =
      ⟨(List.range c).map (headAt env N K) ++
          (loop env N K (N - c + 1) (headAt env N K c)).heads,
        (loop env N K (N - c + 1) (headAt env N K c)).outcome⟩ := by
  have h := loop_run env N K hK c 0 (N - c + 1) (by omega) (fun j _ h2 => hyp j (by omega))
  have e : N - c + 1 + c = N + 1 := by omega
  rw [e] at h
  simp only [Nat.zero_add] at h
  rw [benchmark, List.range_eq_range']
  exact h

theorem main_eq_benchmark (env : Env) (N K : Nat) (hN : 0 < N) :
    main env N K =
      .ok (benchmark env N K (Stopwatch.empty N) (Stopwatch.empty N) (Stopwatch.empty N)) := by
  have h : N ≠ 0 := by omega
  simp [main, NewStopwatchTSC, h, bind, Except.bind, pure, Except.pure]

theorem main_ok (env : Env) (N K : Nat) (run : Run) (h : main env N K = .ok run) :
    0 < N ∧
      run = benchmark env N K (Stopwatch.empty N) (Stopwatch.empty N) (Stopwatch.empty N) := by
  by_cases hN : N = 0
  · subst hN
    simp [main, NewStopwatchTSC, bind, Except.bind] at h
  · have hpos : 0 < N := by omega
    rw [main_eq_benchmark env N K hpos] at h
    exact ⟨hpos, (Except.ok.inj h).symm⟩

theorem report_stopwatch (s : State) (p : Phase) : (report s).stopwatch p = s.stopwatch p := by
  cases p <;> rfl

theorem Stopwatch.elapsedDurations_length (sw : Stopwatch) :
    sw.elapsedDurations.length = sw.completed := by
  unfold Stopwatch.elapsedDurations Stopwatch.completed
  induction sw.spans with
  | nil => rfl
  | cons sp rest ih =>
    cases hf : sp.finish <;> simp [List.filterMap_cons, List.filter_cons, hf, ih]

/-- A run without cancellation and without failure leaves the loop through its
condition, at head `N`. -/
theorem benchmark_completed (env : Env) (N K : Nat) (hK : 0 < K)
    (hyp : ∀ j, j < N → env.cancelled j = false ∧ env.succeeds j) :
    benchmark env N K (Stopwatch.empty N) (Stopwatch.empty N) (Stopwatch.empty N) =
      ⟨(List.range (N + 1)).map (headAt env N K),
        .finished .completed (report (headAt env N K N))⟩ := by
  rw [benchmark_run env N K N hK (le_refl N) hyp, Nat.sub_self,
    loop_exit env N K 0 _ (by rw [headAt_k]; omega)]
  simp [List.range_succ]

/-- A run whose first set reading of the cancellation signal is the one of the
check with index `c` leaves the loop there. -/
theorem benchmark_cancelled (env : Env) (N K c : Nat) (hK : 0 < K) (hc : c < N)
    (hyp : ∀ j, j < c → env.cancelled j = false ∧ env.succeeds j)
    (hset : env.cancelled c = true) :
    benchmark env N K (Stopwatch.empty N) (Stopwatch.empty N) (Stopwatch.empty N) =
      ⟨(List.range (c + 1)).map (headAt env N K),
        .finished .cancelled (report (headAt env N K c))⟩ := by
  rw [benchmark_run env N K c hK (le_of_lt hc) hyp,
    loop_step env N K (N - c) _ (headInv_headAt env N K c (le_of_lt hc))
      (by rw [headAt_k]; exact hc), headAt_k]
  simp [hset, List.range_succ]

/-- A run whose first failure is that of `spanner.NewClient` in trial `j`. -/
theorem benchmark_acquire_fails (env : Env) (N K j : Nat) (e : Error) (hK : 0 < K) (hj : j < N)
    (hyp : ∀ i, i < j → env.cancelled i = false ∧ env.succeeds i)
    (hc : env.cancelled j = false) (hA : (env.newClient j).2 = some e) :
    benchmark env N K (Stopwatch.empty N) (Stopwatch.empty N) (Stopwatch.empty N) =
      ⟨(List.range (j + 1)).map (headAt env N K),
        .aborted (.panic e) (atAcquire env (headAt env N K j))⟩ := by
  rw [benchmark_run env N K j hK (le_of_lt hj) hyp,
    loop_step env N K (N - j) _ (headInv_headAt env N K j (le_of_lt hj))
      (by rw [headAt_k]; exact hj), headAt_k]
  simp [hc, hA, List.range_succ]

/-- A run whose first failure is that of the query of trial `j`. -/
theorem benchmark_query_fails (env : Env) (N K j : Nat) (e : Error) (hK : 0 < K) (hj : j < N)
    (hyp : ∀ i, i < j → env.cancelled i = false ∧ env.succeeds i)
    (hc : env.cancelled j = false) (hA : (env.newClient j).2 = none)
    (hQ : env.query (env.newClient j).1 j = some e) :
    benchmark env N K (Stopwatch.empty N) (Stopwatch.empty N) (Stopwatch.empty N) =
      ⟨(List.range (j + 1)).map (headAt env N K),
        .aborted (.panic e) (atQuery env (headAt env N K j))⟩ := by
  rw [benchmark_run env N K j hK (le_of_lt hj) hyp,
    loop_step env N K (N - j) _ (headInv_headAt env N K j (le_of_lt hj))
      (by rw [headAt_k]; exact hj), headAt_k]
  simp [hc, hA, hQ, List.range_succ]

/-- The program with the constants of the source, 10000 trials and a progress line
every 100 trials: when nothing is cancelled and nothing fails, the run passes the
loop heads `0, ..., 10000` and goes on to the reporting. -/
theorem mainProgram_completed (env : Env)
    (hyp : ∀ j, j < trialCount → env.cancelled j = false ∧ env.succeeds j) :
    mainProgram env =
      .ok ⟨(List.range (trialCount + 1)).map (headAt env trialCount progressEvery),
        .finished .completed (report (headAt env trialCount progressEvery trialCount))⟩ := by
  rw [mainProgram, main_eq_benchmark env trialCount progressEvery (by decide),
    benchmark_completed env trialCount progressEvery (by decide) hyp]

/-- C1.  For every trial count `N ≥ 1` (and every positive progress cadence), when no
cancellation check reads the signal as set and neither `spanner.NewClient` nor the
query fails in any trial, `main` leaves the loop through its condition after
exactly `N` trials, having evaluated the loop head `N + 1` times, and each of the
three stopwatches then holds exactly `N` started laps, all `N` of them completed,
which give `N` elapsed durations. -/
theorem C1_full_run_records_N_laps (env : Env) (N K : Nat) (hN : 1 ≤ N) (hK : 0 < K)
    (hcancel : ∀ j, j < N → env.cancelled j = false)
    (hok : ∀ j, j < N → env.succeeds j) :
    ∃ run f, main env N K = .ok run ∧ run.outcome = .finished .completed f ∧
      run.heads.length = N + 1 ∧ f.k = N ∧
      ∀ p, (f.stopwatch p).started = N ∧ (f.stopwatch p).completed = N ∧
        (f.stopwatch p).elapsedDurations.length = N := by
  have hinv := headInv_headAt env N K N (le_refl N)
  have hk := headAt_k env N K N
  refine ⟨⟨(List.range (N + 1)).map (headAt env N K),
    .finished .completed (report (headAt env N K N))⟩, report (headAt env N K N),
    ?_, rfl, by simp, hk, ?_⟩
  · rw [main_eq_benchmark env N K hN,
      benchmark_completed env N K hK (fun j hj => ⟨hcancel j hj, hok j hj⟩)]
  · intro p
    have h1 := hinv.started p
    have h2 := hinv.completed p
    rw [hk] at h1 h2
    rw [Stopwatch.elapsedDurations_length, report_stopwatch]
    exact ⟨h1, h2, h2⟩

theorem C1_full_run_records_N_laps_witness :
    ∃ run f, main envQuiet 3 2 = .ok run ∧ run.outcome = .finished .completed f ∧
      run.heads.length = 3 + 1 ∧ f.k = 3 ∧
      ∀ p, (f.stopwatch p).started = 3 ∧ (f.stopwatch p).completed = 3 ∧
        (f.stopwatch p).elapsedDurations.length = 3 :=
  C1_full_run_records_N_laps envQuiet 3 2 (by decide) (by decide) (fun _ _ => rfl)
    (fun _ _ => ⟨rfl, rfl⟩)

/-- C2.  For every `N` and every `c` with `0 ≤ c ≤ N` (and every positive progress
cadence), if the cancellation signal first reads as set at the check with index `c`
and no earlier trial fails, then the loop of lines 51-79, entered with three empty
stopwatches of capacity `N`, is left at head `c` (by the `break` when `c < N`, by the
loop condition when `c = N`, where no check is made any more), each of the three
stopwatches holds exactly `c` started and `c` completed laps, and the three
`hrplot.All` calls for `new-client.svg`, `query.svg` and `close.svg` are made, in
that order, on those stopwatches.  For `N ≥ 1` this run is the run of `main`. -/
theorem C2_cancelled_run_records_c_laps (env : Env) (N K c : Nat) (hK : 0 < K) (hc : c ≤ N)
    (hfirst : ∀ j, j < c → env.cancelled j = false)
    (hset : env.cancelled c = true)
    (hok : ∀ j, j < c → env.succeeds j) :
    ∃ f, benchmark env N K (Stopwatch.empty N) (Stopwatch.empty N) (Stopwatch.empty N) =
        ⟨(List.range (c + 1)).map (headAt env N K),
          .finished (if c < N then .cancelled else .completed) f⟩ ∧
      f.k = c ∧
      (∀ p, (f.stopwatch p).started = c ∧ (f.stopwatch p).completed = c ∧
        (f.stopwatch p).elapsedDurations.length = c) ∧
      f.reports =
        [("new-client.svg", f.newClient), ("query.svg", f.query), ("close.svg", f.close)] ∧
      (0 < N → main env N K = .ok ⟨(List.range (c + 1)).map (headAt env N K),
          .finished (if c < N then .cancelled else .completed) f⟩) := by
  have hinv := headInv_headAt env N K c hc
  have hk := headAt_k env N K c
  have hyp : ∀ j, j < c → env.cancelled j = false ∧ env.succeeds j :=
    fun j hj => ⟨hfirst j hj, hok j hj⟩
  have hrun : benchmark env N K (Stopwatch.empty N) (Stopwatch.empty N) (Stopwatch.empty N) =
      ⟨(List.range (c + 1)).map (headAt env N K),
        .finished (if c < N then .cancelled else .completed) (report (headAt env N K c))⟩ := by
    by_cases hlt : c < N
    · rw [if_pos hlt]
      exact benchmark_cancelled env N K c hK hlt hyp hset
    · have hcN : c = N := by omega
      subst hcN
      rw [if_neg hlt]
      exact benchmark_completed env c K hK hyp
  refine ⟨report (headAt env N K c), hrun, hk, ?_, ?_, ?_⟩
  · intro p
    have h1 := hinv.started p
    have h2 := hinv.completed p
    rw [hk] at h1 h2
    rw [Stopwatch.elapsedDurations_length, report_stopwatch]
    exact ⟨h1, h2, h2⟩
  · simp [report, hinv.reports]
  · intro hN
    rw [main_eq_benchmark env N K hN, hrun]

theorem C2_cancelled_run_records_c_laps_witness :
    ∃ f, benchmark (envCancelFrom 2) 5 2 (Stopwatch.empty 5) (Stopwatch.empty 5)
          (Stopwatch.empty 5) =
        ⟨(List.range (2 + 1)).map (headAt (envCancelFrom 2) 5 2),
          .finished (if 2 < 5 then .cancelled else .completed) f⟩ ∧
      f.k = 2 ∧
      (∀ p, (f.stopwatch p).started = 2 ∧ (f.stopwatch p).completed = 2 ∧
        (f.stopwatch p).elapsedDurations.length = 2) ∧
      f.reports =
        [("new-client.svg", f.newClient), ("query.svg", f.query), ("close.svg", f.close)] ∧
      (0 < 5 → main (envCancelFrom 2) 5 2 =
        .ok ⟨(List.range (2 + 1)).map (headAt (envCancelFrom 2) 5 2),
          .finished (if 2 < 5 then .cancelled else .completed) f⟩) :=
  C2_cancelled_run_records_c_laps (envCancelFrom 2) 5 2 2 (by decide) (by decide)
    (fun j hj => by simp [envCancelFrom]; omega) (by simp [envCancelFrom])
    (fun _ _ => ⟨rfl, rfl⟩)

/-- C3 fails as stated: with one trial whose query fails, the abort finds one
completed lap in the `newClient` stopwatch, not zero. -/
theorem C3_counterexample :
    (envQueryFails 0).cancelled 0 = false ∧ ¬ (envQueryFails 0).succeeds 0 ∧
    ∃ hs f, main (envQueryFails 0) 1 100 = .ok ⟨hs, .aborted (.panic ⟨"query failed"⟩) f⟩ ∧
      (f.stopwatch .newClient).completed = 1 ∧ ¬ ∀ p, (f.stopwatch p).completed = 0 := by
  refine ⟨rfl, ?_, _, _, rfl, ?_, ?_⟩
  · simp [Env.succeeds, envQueryFails, envQuiet]
  · decide
  · intro h
    exact absurd (h .newClient) (by decide)

/-- C3, amended.  For every trial index `j < N`, if the trials before `j` ran without
cancellation or failure, trial `j` is not cancelled and its acquire step
(`spanner.NewClient`) or its work step (the query) fails with error `e`, then `main`
panics with `e` in trial `j`: the loop head is not evaluated again, none of the three
reporting calls is made, the `query` and `close` stopwatches hold `j` completed laps,
and the `newClient` stopwatch holds `j` completed laps when the acquire step failed
and `j + 1` when the work step failed. -/
theorem C3_abort_on_failure (env : Env) (N K j : Nat) (hK : 0 < K) (hj : j < N)
    (hprev : ∀ i, i < j → env.cancelled i = false ∧ env.succeeds i)
    (hc : env.cancelled j = false) (hfail : ¬ env.succeeds j) :
    ∃ e f, main env N K =
        .ok ⟨(List.range (j + 1)).map (headAt env N K), .aborted (.panic e) f⟩ ∧
      f.k = j ∧ f.reports = [] ∧
      f.query.completed = j ∧ f.close.completed = j ∧ f.close.started = j ∧
      (((env.newClient j).2 = some e ∧ f.newClient.completed = j ∧
          f.newClient.started = j + 1 ∧ f.query.started = j) ∨
        ((env.newClient j).2 = none ∧ env.query (env.newClient j).1 j = some e ∧
          f.newClient.completed = j + 1 ∧ f.query.started = j + 1)) := by
  have hN : 0 < N := by omega
  have hinv := headInv_headAt env N K j (le_of_lt hj)
  have hk := headAt_k env N K j
  have s1 := hinv.started .newClient
  have s2 := hinv.started .query
  have s3 := hinv.started .close
  have c1 := hinv.completed .newClient
  have c2 := hinv.completed .query
  have c3 := hinv.completed .close
  have hr := hinv.reports
  rw [hk] at s1 s2 s3 c1 c2 c3
  simp only [State.stopwatch, Stopwatch.started, Stopwatch.completed] at s1 s2 s3 c1 c2 c3
  cases hA : (env.newClient j).2 with
  | some e =>
    refine ⟨e, atAcquire env (headAt env N K j), ?_, hk, hr, ?_, ?_, ?_, Or.inl ⟨rfl, ?_, ?_, ?_⟩⟩
    · rw [main_eq_benchmark env N K hN, benchmark_acquire_fails env N K j e hK hj hprev hc hA]
    all_goals
      simp [atAcquire, Stopwatch.lapOpen, Stopwatch.started, Stopwatch.completed,
        List.filter_append, s1, s2, s3, c1, c2, c3]
  | none =>
    cases hQ : env.query (env.newClient j).1 j with
    | none => exact absurd ⟨hA, hQ⟩ hfail
    | some e =>
      refine ⟨e, atQuery env (headAt env N K j), ?_, hk, hr, ?_, ?_, ?_, Or.inr ⟨rfl, rfl, ?_, ?_⟩⟩
      · rw [main_eq_benchmark env N K hN,
          benchmark_query_fails env N K j e hK hj hprev hc hA hQ]
      all_goals
        simp [atQuery, Stopwatch.lapOpen, Stopwatch.lapDone, Stopwatch.started,
          Stopwatch.completed, List.filter_append, s1, s2, s3, c1, c2, c3]

theorem C3_abort_on_failure_witness :
    ∃ e f, main (envQueryFails 1) 3 2 =
        .ok ⟨(List.range (1 + 1)).map (headAt (envQueryFails 1) 3 2), .aborted (.panic e) f⟩ ∧
      f.k = 1 ∧ f.reports = [] ∧
      f.query.completed = 1 ∧ f.close.completed = 1 ∧ f.close.started = 1 ∧
      ((((envQueryFails 1).newClient 1).2 = some e ∧ f.newClient.completed = 1 ∧
          f.newClient.started = 1 + 1 ∧ f.query.started = 1) ∨
        (((envQueryFails 1).newClient 1).2 = none ∧
          (envQueryFails 1).query ((envQueryFails 1).newClient 1).1 1 = some e ∧
          f.newClient.completed = 1 + 1 ∧ f.query.started = 1 + 1)) :=
  C3_abort_on_failure (envQueryFails 1) 3 2 1 (by decide) (by decide)
    (fun i hi => by
      have : i = 0 := by omega
      subst this
      exact ⟨rfl, rfl, rfl⟩)
    rfl (by simp [Env.succeeds, envQueryFails, envQuiet])

/-- C4.  In every run of `main`, at every evaluation of the loop head, with `k` the
value of the loop index there, each of the stopwatches `newClient`, `query` and
`close` holds exactly `k` started laps and exactly `k` completed laps; the same holds
with the final value of `k` when the loop has been left (by its condition or by the
`break`), so that the three stopwatches hold the same number of samples at loop
termination. -/
theorem C4_equal_sample_counts (env : Env) (N K : Nat) (run : Run)
    (h : main env N K = .ok run) :
    run.heads ≠ [] ∧
    (∀ s ∈ run.heads, ∀ p,
      (s.stopwatch p).started = s.k ∧ (s.stopwatch p).completed = s.k) ∧
    (∀ exit f, run.outcome = .finished exit f →
      (∀ p, (f.stopwatch p).started = f.k ∧ (f.stopwatch p).completed = f.k) ∧
      f.newClient.elapsedDurations.length = f.query.elapsedDurations.length ∧
      f.query.elapsedDurations.length = f.close.elapsedDurations.length) := by
  obtain ⟨_, rfl⟩ := main_ok env N K run h
  obtain ⟨hall, hd, hinv, hmem, hcase⟩ := loop_cases env N K (N + 1) _
    (headInv_initial env N K) (by simp [State.initial])
  refine ⟨List.ne_nil_of_mem hmem,
    fun s hs p => ⟨(hall s hs).started p, (hall s hs).completed p⟩, ?_⟩
  intro exit f hf
  have hfin : f = report hd := by
    rcases hcase with ⟨_, ho⟩ | ⟨_, _, ho⟩ | ⟨_, _, _, ho⟩ | ⟨_, _, _, _, ho⟩ | ⟨_, _, ho⟩ <;>
      · rw [benchmark] at hf
        rw [ho] at hf
        first
          | exact (Outcome.finished.inj hf).2.symm
          | exact Outcome.noConfusion hf
  subst hfin
  have e1 := hinv.completed .newClient
  have e2 := hinv.completed .query
  have e3 := hinv.completed .close
  refine ⟨fun p => ?_, ?_, ?_⟩
  · rw [report_stopwatch]
    exact ⟨hinv.started p, hinv.completed p⟩
  · rw [Stopwatch.elapsedDurations_length, Stopwatch.elapsedDurations_length]
    exact e1.trans e2.symm
  · rw [Stopwatch.elapsedDurations_length, Stopwatch.elapsedDurations_length]
    exact e2.trans e3.symm

theorem C4_equal_sample_counts_witness :
    main (envCancelFrom 1) 2 1 = .ok (benchmark (envCancelFrom 1) 2 1 (Stopwatch.empty 2)
        (Stopwatch.empty 2) (Stopwatch.empty 2)) ∧
    ((benchmark (envCancelFrom 1) 2 1 (Stopwatch.empty 2) (Stopwatch.empty 2)
        (Stopwatch.empty 2)).heads ≠ [] ∧
    (∀ s ∈ (benchmark (envCancelFrom 1) 2 1 (Stopwatch.empty 2) (Stopwatch.empty 2)
        (Stopwatch.empty 2)).heads, ∀ p,
      (s.stopwatch p).started = s.k ∧ (s.stopwatch p).completed = s.k) ∧
    (∀ exit f, (benchmark (envCancelFrom 1) 2 1 (Stopwatch.empty 2) (Stopwatch.empty 2)
        (Stopwatch.empty 2)).outcome = .finished exit f →
      (∀ p, (f.stopwatch p).started = f.k ∧ (f.stopwatch p).completed = f.k) ∧
      f.newClient.elapsedDurations.length = f.query.elapsedDurations.length ∧
      f.query.elapsedDurations.length = f.close.elapsedDurations.length)) :=
  ⟨rfl, C4_equal_sample_counts (envCancelFrom 1) 2 1 _ rfl⟩

theorem lapStep_foldl_none (p : Phase) (calls : List Call) :
    calls.foldl (lapStep p) none = none := by
  induction calls with
  | nil => rfl
  | cons c rest ih => simpa [List.foldl_cons, lapStep] using ih

theorem lapsInOrder_of_append (p : Phase) (pre rest : List Call)
    (h : lapsInOrder p (pre ++ rest) = true) : lapsInOrder p pre = true := by
  unfold lapsInOrder lapState at *
  rw [List.foldl_append] at h
  cases hpre : pre.foldl (lapStep p) (some none) with
  | none => rw [hpre, lapStep_foldl_none] at h; exact absurd h (by simp)
  | some st => rfl

theorem callsOK_extend (env : Env) (N K : Nat) (s : State) (h : HeadInv env N K s)
    (extra : List Call)
    (hx : (extra = [] ∧ s.k ≤ N) ∨ (s.k < N ∧
      (extra = [.start .newClient s.k] ∨
       extra = [.start .newClient s.k, .stop .newClient s.k, .start .query s.k] ∨
       extra = [.start .newClient s.k, .stop .newClient s.k, .start .query s.k,
         .stop .query s.k, .start .close s.k, .stop .close s.k]))) :
    CallsOK N (s.calls ++ extra) := by
  intro p
  have hi := h.idle p
  have h1 := h.issued p
  have h2 := h.consumed p
  simp only [lapState] at hi
  simp only [startHandles] at h1
  simp only [stopHandles] at h2
  rcases hx with ⟨rfl, hk⟩ | ⟨hk, rfl | rfl | rfl⟩ <;> cases p <;>
    simp [lapsInOrder, lapState, startHandles, stopHandles, startCount, stopCount,
      List.foldl_append, List.filterMap_append, hi, h1, h2, lapStep, List.range_succ] <;>
    omega

/-- Every run of the loop entered at a loop head ends, and the calls it has made by
then respect the lap discipline; no run is stopped by a stopwatch. -/
theorem loop_calls (env : Env) (N K : Nat) (fuel : Nat) (s : State)
    (hs : HeadInv env N K s) (hf : N - s.k < fuel) :
    (∃ f, (loop env N K fuel s).outcome.state = some f ∧ CallsOK N f.calls) ∧
    ∀ p f, (loop env N K fuel s).outcome ≠ .aborted (.stopwatch p) f := by
  obtain ⟨_, hd, hinv, _, hcase⟩ := loop_cases env N K fuel s hs hf
  have l1 := hinv.started .newClient
  have l2 := hinv.started .query
  have l3 := hinv.started .close
  simp only [State.stopwatch, Stopwatch.started] at l1 l2 l3
  rcases hcase with ⟨hk, ho⟩ | ⟨hk, _, ho⟩ | ⟨hk, e, _, ho⟩ | ⟨hk, _, e, _, ho⟩ | ⟨hk, _, ho⟩
  · refine ⟨⟨report hd, by rw [ho]; rfl, ?_⟩, fun p f => by rw [ho]; exact Outcome.noConfusion⟩
    have := callsOK_extend env N K hd hinv [] (Or.inl ⟨rfl, hinv.le⟩)
    simpa [report] using this
  · refine ⟨⟨report hd, by rw [ho]; rfl, ?_⟩, fun p f => by rw [ho]; exact Outcome.noConfusion⟩
    have := callsOK_extend env N K hd hinv [] (Or.inl ⟨rfl, hinv.le⟩)
    simpa [report] using this
  · refine ⟨⟨atAcquire env hd, by rw [ho]; rfl, ?_⟩, fun p f => by rw [ho]; simp⟩
    have := callsOK_extend env N K hd hinv _ (Or.inr ⟨hk, Or.inl rfl⟩)
    simpa [atAcquire, l1] using this
  · refine ⟨⟨atQuery env hd, by rw [ho]; rfl, ?_⟩, fun p f => by rw [ho]; simp⟩
    have := callsOK_extend env N K hd hinv _ (Or.inr ⟨hk, Or.inr (Or.inl rfl)⟩)
    simpa [atQuery, l1, l2] using this
  · refine ⟨⟨atFinish env hd, by rw [ho]; rfl, ?_⟩, fun p f => by rw [ho]; simp⟩
    have := callsOK_extend env N K hd hinv _ (Or.inr ⟨hk, Or.inr (Or.inr rfl)⟩)
    simpa [atFinish, l1, l2, l3] using this

/-- C9.  In every run of `main`, whatever is cancelled and whatever fails, the run
ends in a state whose call history `f.calls` satisfies, for each of the three
stopwatches: at every moment of the run (every initial part of the history) each
`Stop` has been passed the handle returned by the latest `Start` on that stopwatch
and no `Start` has occurred while a lap was in flight; the handles issued are
`0, 1, 2, ...` in order and are stopped in that same order, each once; and the number
of `Start` calls does not exceed the capacity `N`.  No `Start` or `Stop` falls outside
the contract of the stopwatch. -/
theorem C9_laps_in_order_within_capacity (env : Env) (N K : Nat) (run : Run)
    (h : main env N K = .ok run) :
    (∃ f, run.outcome.state = some f ∧ ∀ p,
      (∀ pre, pre <+: f.calls → lapsInOrder p pre = true) ∧
      startHandles p f.calls = List.range (startCount p f.calls) ∧
      stopHandles p f.calls = List.range (stopCount p f.calls) ∧
      stopCount p f.calls ≤ startCount p f.calls ∧
      startCount p f.calls ≤ N) ∧
    ∀ p f, run.outcome ≠ .aborted (.stopwatch p) f := by
  obtain ⟨_, rfl⟩ := main_ok env N K run h
  obtain ⟨⟨f, hf, hok⟩, hne⟩ := loop_calls env N K (N + 1) _ (headInv_initial env N K)
    (by simp [State.initial])
  refine ⟨⟨f, hf, fun p => ?_⟩, hne⟩
  obtain ⟨h1, h2, h3, h4, h5⟩ := hok p
  refine ⟨?_, h2, h3, h4, h5⟩
  rintro pre ⟨rest, hrest⟩
  exact lapsInOrder_of_append p pre rest (by rw [hrest]; exact h1)

theorem C9_laps_in_order_within_capacity_witness :
    main (envAcquireFails 1) 2 1 = .ok (benchmark (envAcquireFails 1) 2 1 (Stopwatch.empty 2)
        (Stopwatch.empty 2) (Stopwatch.empty 2)) ∧
    ((∃ f, (benchmark (envAcquireFails 1) 2 1 (Stopwatch.empty 2) (Stopwatch.empty 2)
        (Stopwatch.empty 2)).outcome.state = some f ∧ ∀ p,
      (∀ pre, pre <+: f.calls → lapsInOrder p pre = true) ∧
      startHandles p f.calls = List.range (startCount p f.calls) ∧
      stopHandles p f.calls = List.range (stopCount p f.calls) ∧
      stopCount p f.calls ≤ startCount p f.calls ∧
      startCount p f.calls ≤ 2) ∧
    ∀ p f, (benchmark (envAcquireFails 1) 2 1 (Stopwatch.empty 2) (Stopwatch.empty 2)
        (Stopwatch.empty 2)).outcome ≠ .aborted (.stopwatch p) f) :=
  ⟨rfl, C9_laps_in_order_within_capacity (envAcquireFails 1) 2 1 _ rfl⟩

theorem percent_eq (k N : Nat) (h : k * 100 < 2 ^ 63) :
    percent k N = ((k * 100 / N : Nat) : Int) := by
  have h1 : ((k : Int) * 100 + 2 ^ 63) % 2 ^ 64 = (k : Int) * 100 + 2 ^ 63 := by
    apply Int.emod_eq_of_lt
    · positivity
    · have : ((k * 100 : Nat) : Int) < 2 ^ 63 := by exact_mod_cast h
      push_cast at this
      linarith
  rw [percent, wrapInt64, h1, Int.ofNat_tdiv]
  simp

theorem count_multiples (K : Nat) (hK : 0 < K) : ∀ N,
    ((List.range N).filter (fun j => j % K = 0)).length = (N + K - 1) / K
  | 0 => by
    rw [Nat.zero_add, Nat.div_eq_of_lt (by omega)]
    rfl
  | N + 1 => by
    rw [List.range_succ, List.filter_append, List.length_append, count_multiples K hK N]
    have e : N + 1 + K - 1 = (N + K - 1) + 1 := by omega
    rw [e, Nat.succ_div]
    have e2 : N + K - 1 + 1 = N + K := by omega
    rw [e2]
    have : K ∣ N + K ↔ N % K = 0 := by
      rw [Nat.dvd_add_self_right, Nat.dvd_iff_mod_eq_zero]
    by_cases hm : N % K = 0
    · simp [hm, this]
    · simp [hm, this]

theorem progressLog_eq (env : Env) (N K k : Nat) (hk : k ≤ N) (hN : N * 100 < 2 ^ 63) :
    progressLog env N K k =
      ((List.range k).filter (fun j => j % K = 0)).map
        (fun j => ⟨((j * 100 / N : Nat) : Int),
          wrapInt64 (env.clock (8 * j + 7) - env.clock (8 * j))⟩) := by
  unfold progressLog
  apply List.map_congr_left
  intro j hj
  have hjk : j < k := List.mem_range.mp (List.mem_filter.mp hj).1
  rw [percent_eq j N (by omega)]

/-- C5.  (1) In every run of `main` with trial count `N` and progress cadence `K`, at
every loop head, with `k` trials done, the lines printed so far are those of the
trial indices `j < k` with `j % K = 0`, in order: a line is printed for trial `j` if
and only if `j` is a multiple of `K`, trial `0` included.  (2) For `N ≥ 1`, `K ≥ 1` and
`N * 100` within the range of `int`, a run without cancellation or failure prints
exactly the lines of the multiples of `K` below `N`, the line of trial `j` carrying
the integer quotient `j*100/N`, and it prints `(N + K - 1) / K` lines, which is
`N / K` rounded up.  (3) For `N = 100` and `K = 10` these are exactly 10 lines, those of
the trial indices 0, 10, ..., 90. -/
theorem C5_progress_lines :
    (∀ (env : Env) (N K : Nat) (run : Run), main env N K = .ok run →
      ∀ s ∈ run.heads, s.out =
        ((List.range s.k).filter (fun j => j % K = 0)).map
          (fun j => ⟨percent j N, wrapInt64 (env.clock (8 * j + 7) - env.clock (8 * j))⟩)) ∧
    (∀ (env : Env) (N K : Nat), 0 < N → 0 < K → N * 100 < 2 ^ 63 →
      (∀ j, j < N → env.cancelled j = false) → (∀ j, j < N → env.succeeds j) →
      ∃ hs f, main env N K = .ok ⟨hs, .finished .completed f⟩ ∧
        f.out = ((List.range N).filter (fun j => j % K = 0)).map
          (fun j => ⟨((j * 100 / N : Nat) : Int),
            wrapInt64 (env.clock (8 * j + 7) - env.clock (8 * j))⟩) ∧
        f.out.length = (N + K - 1) / K) ∧
    (∀ (env : Env), (∀ j, j < 100 → env.cancelled j = false) →
      (∀ j, j < 100 → env.succeeds j) →
      ∃ hs f, main env 100 10 = .ok ⟨hs, .finished .completed f⟩ ∧
        f.out = [0, 10, 20, 30, 40, 50, 60, 70, 80, 90].map
          (fun j => ⟨((j * 100 / 100 : Nat) : Int),
            wrapInt64 (env.clock (8 * j + 7) - env.clock (8 * j))⟩) ∧
        f.out.length = 10) := by
  have full : ∀ (env : Env) (N K : Nat), 0 < N → 0 < K → N * 100 < 2 ^ 63 →
      (∀ j, j < N → env.cancelled j = false) → (∀ j, j < N → env.succeeds j) →
      ∃ hs f, main env N K = .ok ⟨hs, .finished .completed f⟩ ∧
        f.out = ((List.range N).filter (fun j => j % K = 0)).map
          (fun j => ⟨((j * 100 / N : Nat) : Int),
            wrapInt64 (env.clock (8 * j + 7) - env.clock (8 * j))⟩) ∧
        f.out.length = (N + K - 1) / K := by
    intro env N K hN hK hb hcancel hok
    have hinv := headInv_headAt env N K N (le_refl N)
    have hk := headAt_k env N K N
    have hout : (report (headAt env N K N)).out = progressLog env N K N := by
      have := hinv.out
      rw [hk] at this
      exact this
    refine ⟨(List.range (N + 1)).map (headAt env N K), report (headAt env N K N), ?_, ?_, ?_⟩
    · rw [main_eq_benchmark env N K hN,
        benchmark_completed env N K hK (fun j hj => ⟨hcancel j hj, hok j hj⟩)]
    · rw [hout, progressLog_eq env N K N (le_refl N) hb]
    · rw [hout, progressLog, List.length_map, count_multiples K hK N]
  refine ⟨?_, full, ?_⟩
  · intro env N K run h s hs
    obtain ⟨_, rfl⟩ := main_ok env N K run h
    obtain ⟨hall, _⟩ := loop_cases env N K (N + 1) _ (headInv_initial env N K)
      (by simp [State.initial])
    exact (hall s hs).out
  · intro env hcancel hok
    obtain ⟨hs, f, h1, h2, h3⟩ := full env 100 10 (by decide) (by decide) (by decide) hcancel hok
    refine ⟨hs, f, h1, ?_, h3⟩
    rw [h2]
    have e : (List.range 100).filter (fun j => decide (j % 10 = 0)) =
        [0, 10, 20, 30, 40, 50, 60, 70, 80, 90] := by decide
    rw [e]

theorem C5_progress_lines_witness :
    (∃ hs f, main envQuiet 100 10 = .ok ⟨hs, .finished .completed f⟩ ∧
        f.out = [0, 10, 20, 30, 40, 50, 60, 70, 80, 90].map
          (fun j => ⟨((j * 100 / 100 : Nat) : Int),
            wrapInt64 (envQuiet.clock (8 * j + 7) - envQuiet.clock (8 * j))⟩) ∧
        f.out.length = 10) ∧
    (∃ hs f, main envQuiet 7 3 = .ok ⟨hs, .finished .completed f⟩ ∧
        f.out = ((List.range 7).filter (fun j => j % 3 = 0)).map
          (fun j => ⟨((j * 100 / 7 : Nat) : Int),
            wrapInt64 (envQuiet.clock (8 * j + 7) - envQuiet.clock (8 * j))⟩) ∧
        f.out.length = (7 + 3 - 1) / 3) ∧
    (∀ s ∈ (benchmark envQuiet 2 1 (Stopwatch.empty 2) (Stopwatch.empty 2)
        (Stopwatch.empty 2)).heads, s.out =
      ((List.range s.k).filter (fun j => j % 1 = 0)).map
        (fun j => ⟨percent j 2,
          wrapInt64 (envQuiet.clock (8 * j + 7) - envQuiet.clock (8 * j))⟩)) :=
  ⟨C5_progress_lines.2.2 envQuiet (fun _ _ => rfl) (fun _ _ => ⟨rfl, rfl⟩),
    C5_progress_lines.2.1 envQuiet 7 3 (by decide) (by decide) (by decide) (fun _ _ => rfl)
      (fun _ _ => ⟨rfl, rfl⟩),
    C5_progress_lines.1 envQuiet 2 1 _ rfl⟩

/-- C10.  For every value `v` and error `err`: `must(v, err)` returns exactly `v` when
`err` is nil; it panics with that same error when `err` is not nil; so it fails if
and only if `err` is not nil.  In `main`, when trial `j` is reached and its acquire
step or its work step returns the error `e`, the run ends in a panic with `e` and
no report is made. -/
theorem C10_must_returns_or_panics (T : Type) (v : T) (err : Option Error)
    (env : Env) (N K j : Nat) (hK : 0 < K) (hj : j < N)
    (hprev : ∀ i, i < j → env.cancelled i = false ∧ env.succeeds i)
    (hc : env.cancelled j = false) :
    (err = none → must v err = .ok v) ∧
    (∀ e, err = some e → must v err = .error e) ∧
    ((∃ e, must v err = .error e) ↔ err ≠ none) ∧
    (∀ e, ((env.newClient j).2 = some e ∨
        ((env.newClient j).2 = none ∧ env.query (env.newClient j).1 j = some e)) →
      ∃ hs f, main env N K = .ok ⟨hs, .aborted (.panic e) f⟩ ∧ f.reports = []) := by
  have hN : 0 < N := by omega
  refine ⟨?_, ?_, ?_, ?_⟩
  · rintro rfl
    rfl
  · rintro e rfl
    rfl
  · cases err with
    | none => simp [must]
    | some e => simp [must]
  · have hr := (headInv_headAt env N K j (le_of_lt hj)).reports
    rintro e (hA | ⟨hA, hQ⟩)
    · exact ⟨(List.range (j + 1)).map (headAt env N K), atAcquire env (headAt env N K j), by
        rw [main_eq_benchmark env N K hN,
          benchmark_acquire_fails env N K j e hK hj hprev hc hA], hr⟩
    · exact ⟨(List.range (j + 1)).map (headAt env N K), atQuery env (headAt env N K j), by
        rw [main_eq_benchmark env N K hN,
          benchmark_query_fails env N K j e hK hj hprev hc hA hQ], hr⟩

theorem C10_must_returns_or_panics_witness :
    ((some ⟨"boom"⟩ : Option Error) = none → must (7 : Nat) (some ⟨"boom"⟩) = .ok 7) ∧
    (∀ e, (some ⟨"boom"⟩ : Option Error) = some e → must (7 : Nat) (some ⟨"boom"⟩) = .error e) ∧
    ((∃ e, must (7 : Nat) (some ⟨"boom"⟩) = .error e) ↔ (some ⟨"boom"⟩ : Option Error) ≠ none) ∧
    (∀ e, (((envAcquireFails 0).newClient 0).2 = some e ∨
        (((envAcquireFails 0).newClient 0).2 = none ∧
          (envAcquireFails 0).query ((envAcquireFails 0).newClient 0).1 0 = some e)) →
      ∃ hs f, main (envAcquireFails 0) 2 1 = .ok ⟨hs, .aborted (.panic e) f⟩ ∧
        f.reports = []) :=
  C10_must_returns_or_panics Nat 7 (some ⟨"boom"⟩) (envAcquireFails 0) 2 1 0 (by decide)
    (by decide) (fun i hi => absurd hi (Nat.not_lt_zero i)) rfl

/-! ## `BenchmarkInMS` -/

theorem scale_foldl {F : Type} (ops : Float64Ops F) (rs : Slice) (m : Memory F) :
    ∀ (n a : Nat), (List.range n).foldl (scaleAt ops rs) m a =
      if rs.ptr ≤ a ∧ a < rs.ptr + n then ops.mul (m a) ops.scale else m a := by
  intro n
  induction n with
  | zero =>
    intro a
    have : ¬ (rs.ptr ≤ a ∧ a < rs.ptr + 0) := by omega
    rw [if_neg this]
    rfl
  | succ n ih =>
    intro a
    rw [List.range_succ, List.foldl_append, List.foldl_cons, List.foldl_nil, scaleAt]
    by_cases ha : a = rs.ptr + n
    · subst ha
      rw [Function.update_same, ih]
      have h1 : ¬ (rs.ptr ≤ rs.ptr + n ∧ rs.ptr + n < rs.ptr + n) := by omega
      have h2 : rs.ptr ≤ rs.ptr + n ∧ rs.ptr + n < rs.ptr + (n + 1) := by omega
      rw [if_neg h1, if_pos h2]
    · rw [Function.update_noteq ha, ih]
      by_cases hin : rs.ptr ≤ a ∧ a < rs.ptr + n
      · have h2 : rs.ptr ≤ a ∧ a < rs.ptr + (n + 1) := by omega
        rw [if_pos hin, if_pos h2]
      · have h2 : ¬ (rs.ptr ≤ a ∧ a < rs.ptr + (n + 1)) := by omega
        rw [if_neg hin, if_neg h2]

theorem returned_inMS {F σ : Type} (ops : Float64Ops F) (b : Benchmark F σ) (st : σ)
    (m : Memory F) :
    returned (BenchmarkInMS.Float64s ops b st m) =
      (returned (b.Float64s st m)).map (fun x => ops.mul x ops.scale) := by
  simp only [returned, BenchmarkInMS.Float64s, Slice.read, List.map_map]
  apply List.map_congr_left
  intro i hi
  have hi2 : i < (b.Float64s st m).1.len := List.mem_range.mp hi
  rw [scale_foldl]
  have : (b.Float64s st m).1.ptr ≤ (b.Float64s st m).1.ptr + i ∧
      (b.Float64s st m).1.ptr + i < (b.Float64s st m).1.ptr + (b.Float64s st m).1.len := by
    omega
  rw [if_pos this]
  rfl

/-! ## `float64` multiplication -/

theorem roundShift_near (M sh : Nat) (hsh : 1 ≤ sh) :
    roundShift M sh * 2 ^ sh ≤ M + 2 ^ (sh - 1) ∧ M ≤ roundShift M sh * 2 ^ sh + 2 ^ (sh - 1) := by
  have hpow : 2 ^ sh = 2 * 2 ^ (sh - 1) := by
    rw [← pow_succ']
    congr 1
    omega
  have hdm := Nat.div_add_mod M (2 ^ sh)
  have hlt : M % 2 ^ sh < 2 ^ sh := Nat.mod_lt _ (by positivity)
  rw [Nat.mul_comm] at hdm
  unfold roundShift
  split
  · rename_i hc
    rw [Nat.add_mul, Nat.one_mul]
    rcases hc with hc | ⟨hc, _⟩ <;> omega
  · rename_i hc
    have h1 : ¬ 2 ^ (sh - 1) < M % 2 ^ sh := fun h => hc (Or.inl h)
    omega

theorem two_zpow_pos (e : Int) : (0 : ℚ) < 2 ^ e := zpow_pos (by norm_num) e

theorem round_base (M : Nat) (E e0 : Int) :
    |(((if e0 ≤ E then M * 2 ^ (E - e0).toNat else roundShift M (e0 - E).toNat : Nat) : ℚ)) *
        2 ^ e0 - (M : ℚ) * 2 ^ E| ≤ 2 ^ (e0 - 1) := by
  by_cases hle : e0 ≤ E
  · rw [if_pos hle]
    have hk : ((E - e0).toNat : Int) = E - e0 := Int.toNat_of_nonneg (by omega)
    have e1 : ((M * 2 ^ (E - e0).toNat : Nat) : ℚ) * 2 ^ e0 = (M : ℚ) * 2 ^ E := by
      push_cast
      rw [mul_assoc, ← zpow_natCast, ← zpow_add₀ (by norm_num : (2 : ℚ) ≠ 0), hk]
      congr 2
      omega
    rw [e1, sub_self, abs_zero]
    exact le_of_lt (two_zpow_pos _)
  · rw [if_neg hle]
    have hsh : ((e0 - E).toNat : Int) = e0 - E := Int.toNat_of_nonneg (by omega)
    have h1 : 1 ≤ (e0 - E).toNat := by omega
    obtain ⟨ha, hb⟩ := roundShift_near M (e0 - E).toNat h1
    have ha' : ((roundShift M (e0 - E).toNat : Nat) : ℚ) * 2 ^ (e0 - E).toNat ≤
        (M : ℚ) + 2 ^ ((e0 - E).toNat - 1) := by exact_mod_cast ha
    have hb' : (M : ℚ) ≤ ((roundShift M (e0 - E).toNat : Nat) : ℚ) * 2 ^ (e0 - E).toNat +
        2 ^ ((e0 - E).toNat - 1) := by exact_mod_cast hb
    have p1 : (2 : ℚ) ^ e0 = 2 ^ (e0 - E).toNat * 2 ^ E := by
      rw [← zpow_natCast, ← zpow_add₀ (by norm_num : (2 : ℚ) ≠ 0), hsh]
      congr 1
      omega
    have p2 : (2 : ℚ) ^ (e0 - 1) = 2 ^ ((e0 - E).toNat - 1) * 2 ^ E := by
      rw [← zpow_natCast, ← zpow_add₀ (by norm_num : (2 : ℚ) ≠ 0)]
      congr 1
      omega
    have hE := two_zpow_pos E
    rw [p1, p2, abs_le]
    constructor
    · nlinarith
    · nlinarith

theorem round_near (neg : Bool) (M : Nat) (E : Int) (s : Bool) (m : Nat) (e : Int)
    (h : Float64.round neg M E = .finite s m e) :
    s = neg ∧ |(m : ℚ) * 2 ^ e - (M : ℚ) * 2 ^ E| ≤ 2 ^ (e - 1) := by
  unfold Float64.round at h
  by_cases hM : M = 0
  · rw [if_pos hM] at h
    injection h with h1 h2 h3
    subst hM h1 h2 h3
    refine ⟨rfl, ?_⟩
    simp only [Nat.cast_zero, zero_mul, sub_self, abs_zero]
    exact le_of_lt (two_zpow_pos _)
  · rw [if_neg hM] at h
    have hb := round_base M E (max ((bitLength M : Int) - 1 + E - 52) (-1074))
    generalize max ((bitLength M : Int) - 1 + E - 52) (-1074) = e0 at h hb
    dsimp only at h
    generalize (if e0 ≤ E then M * 2 ^ (E - e0).toNat else roundShift M (e0 - E).toNat) = m0
      at h hb
    by_cases hc : m0 = 2 ^ 53
    · rw [if_pos hc] at h
      by_cases ho : 971 < e0 + 1
      · rw [if_pos ho] at h
        exact Float64.noConfusion h
      · rw [if_neg ho] at h
        injection h with h1 h2 h3
        subst h1 h2 h3 hc
        refine ⟨rfl, ?_⟩
        have p : ((2 ^ 52 : Nat) : ℚ) * 2 ^ (e0 + 1) = ((2 ^ 53 : Nat) : ℚ) * 2 ^ e0 := by
          rw [zpow_add₀ (by norm_num : (2 : ℚ) ≠ 0)]
          push_cast
          ring
        have q : (2 : ℚ) ^ (e0 + 1 - 1) = 2 * 2 ^ (e0 - 1) := by
          rw [show e0 + 1 - 1 = 1 + (e0 - 1) by ring, zpow_add₀ (by norm_num : (2 : ℚ) ≠ 0)]
          norm_num
        rw [p, q]
        have := two_zpow_pos (e0 - 1)
        linarith
    · rw [if_neg hc] at h
      by_cases ho : 971 < e0
      · rw [if_pos ho] at h
        exact Float64.noConfusion h
      · rw [if_neg ho] at h
        injection h with h1 h2 h3
        subst h1 h2 h3
        exact ⟨rfl, hb⟩

theorem Float64.mul_near (x y : Float64) (v : ℚ) (h : (Float64.mul x y).value = some v) :
    ∃ vx vy, x.value = some vx ∧ y.value = some vy ∧
      |v - vx * vy| ≤ (Float64.mul x y).halfUlp := by
  cases x with
  | nan => simp [Float64.mul, Float64.value] at h
  | inf s =>
    cases y with
    | nan => simp [Float64.mul, Float64.value] at h
    | inf t => simp [Float64.mul, Float64.value] at h
    | finite t n f =>
      by_cases hn : n = 0 <;> simp [Float64.mul, Float64.value, hn] at h
  | finite s m e =>
    cases y with
    | nan => simp [Float64.mul, Float64.value] at h
    | inf t => by_cases hm : m = 0 <;> simp [Float64.mul, Float64.value, hm] at h
    | finite t n f =>
      refine ⟨_, _, rfl, rfl, ?_⟩
      simp only [Float64.mul] at h ⊢
      cases hr : Float64.round (xor s t) (m * n) (e + f) with
      | nan => rw [hr] at h; simp [Float64.value] at h
      | inf u => rw [hr] at h; simp [Float64.value] at h
      | finite u k g =>
        rw [hr] at h
        obtain ⟨hu, hb⟩ := round_near _ _ _ _ _ _ hr
        simp only [Float64.value, Option.some.injEq] at h
        subst h hu
        simp only [Float64.halfUlp]
        have key : (if xor s t = true then (-1 : ℚ) else 1) * (k : ℚ) * 2 ^ g -
            (if s = true then (-1 : ℚ) else 1) * (m : ℚ) * 2 ^ e *
              ((if t = true then (-1 : ℚ) else 1) * (n : ℚ) * 2 ^ f) =
            (if xor s t = true then (-1 : ℚ) else 1) *
              ((k : ℚ) * 2 ^ g - ((m * n : Nat) : ℚ) * 2 ^ (e + f)) := by
          rw [zpow_add₀ (by norm_num : (2 : ℚ) ≠ 0)]
          push_cast
          cases s <;> cases t <;> simp <;> ring
        rw [key, abs_mul]
        have : |(if xor s t = true then (-1 : ℚ) else 1)| = 1 := by
          cases s <;> cases t <;> simp
        rw [this, one_mul]
        exact hb

theorem bitLengthAux_spec : ∀ (fuel n : Nat), n ≤ fuel → n ≠ 0 →
    2 ^ (bitLengthAux fuel n - 1) ≤ n ∧ n < 2 ^ bitLengthAux fuel n ∧ 1 ≤ bitLengthAux fuel n := by
  intro fuel
  induction fuel with
  | zero => intro n h0 h1; omega
  | succ fuel ih =>
    intro n hle hn
    rw [bitLengthAux, if_neg hn]
    by_cases h2 : n / 2 = 0
    · have hz : bitLengthAux fuel (n / 2) = 0 := by
        rw [h2]
        cases fuel <;> simp [bitLengthAux]
      rw [hz]
      have : n = 1 := by omega
      subst this
      simp
    · obtain ⟨ha, hb, hc⟩ := ih (n / 2) (by omega) h2
      generalize bitLengthAux fuel (n / 2) = a at ha hb hc
      have e1 : 2 ^ a = 2 * 2 ^ (a - 1) := by
        rw [← pow_succ']
        congr 1
        omega
      refine ⟨?_, ?_, by omega⟩
      · rw [Nat.add_sub_cancel]
        omega
      · rw [pow_succ]
        omega

theorem bitLength_spec (n : Nat) (hn : n ≠ 0) :
    2 ^ (bitLength n - 1) ≤ n ∧ n < 2 ^ bitLength n ∧ 1 ≤ bitLength n :=
  bitLengthAux_spec n n (le_refl n) hn

theorem roundShift_cases (M sh : Nat) :
    roundShift M sh = M / 2 ^ sh ∨ roundShift M sh = M / 2 ^ sh + 1 := by
  unfold roundShift
  split
  · exact Or.inr rfl
  · exact Or.inl rfl

theorem round_canonical (neg : Bool) (M : Nat) (E : Int) (s : Bool) (m : Nat) (e : Int)
    (h : Float64.round neg M E = .finite s m e) :
    m < 2 ^ 53 ∧ -1074 ≤ e ∧ e ≤ 971 ∧ (e = -1074 ∨ 2 ^ 52 ≤ m) := by
  unfold Float64.round at h
  by_cases hM : M = 0
  · rw [if_pos hM] at h
    injection h with h1 h2 h3
    subst h2 h3
    exact ⟨by norm_num, le_refl _, by norm_num, Or.inl rfl⟩
  · rw [if_neg hM] at h
    obtain ⟨hlo, hhi, hL⟩ := bitLength_spec M hM
    generalize bitLength M = L at h hlo hhi hL
    have he0 : (-1074 : Int) ≤ max ((L : Int) - 1 + E - 52) (-1074) := le_max_right _ _
    have he1 : (L : Int) - 1 + E - 52 ≤ max ((L : Int) - 1 + E - 52) (-1074) := le_max_left _ _
    have he2 : max ((L : Int) - 1 + E - 52) (-1074) = -1074 ∨
        max ((L : Int) - 1 + E - 52) (-1074) = (L : Int) - 1 + E - 52 := by
      rcases max_choice ((L : Int) - 1 + E - 52) (-1074) with h | h
      · exact Or.inr h
      · exact Or.inl h
    generalize max ((L : Int) - 1 + E - 52) (-1074) = e0 at h he0 he1 he2
    dsimp only at h
    have hm0 : (if e0 ≤ E then M * 2 ^ (E - e0).toNat else roundShift M (e0 - E).toNat) ≤ 2 ^ 53 ∧
        (e0 = -1074 ∨
          2 ^ 52 ≤ (if e0 ≤ E then M * 2 ^ (E - e0).toNat else roundShift M (e0 - E).toNat)) := by
      by_cases hle : e0 ≤ E
      · rw [if_pos hle]
        have hk : L + (E - e0).toNat ≤ 53 := by omega
        constructor
        · calc M * 2 ^ (E - e0).toNat ≤ 2 ^ L * 2 ^ (E - e0).toNat :=
                Nat.mul_le_mul_right _ (le_of_lt hhi)
            _ = 2 ^ (L + (E - e0).toNat) := (pow_add 2 _ _).symm
            _ ≤ 2 ^ 53 := Nat.pow_le_pow_right (by norm_num) hk
        · rcases he2 with h2 | h2
          · exact Or.inl h2
          · right
            have hk2 : L - 1 + (E - e0).toNat = 52 := by omega
            calc 2 ^ 52 = 2 ^ (L - 1 + (E - e0).toNat) := by rw [hk2]
              _ = 2 ^ (L - 1) * 2 ^ (E - e0).toNat := pow_add 2 _ _
              _ ≤ M * 2 ^ (E - e0).toNat := Nat.mul_le_mul_right _ hlo
      · rw [if_neg hle]
        have hsh : L ≤ 53 + (e0 - E).toNat := by omega
        have hq : M / 2 ^ (e0 - E).toNat < 2 ^ 53 := by
          apply Nat.div_lt_of_lt_mul
          calc M < 2 ^ L := hhi
            _ ≤ 2 ^ ((e0 - E).toNat + 53) := Nat.pow_le_pow_right (by norm_num) (by omega)
            _ = 2 ^ (e0 - E).toNat * 2 ^ 53 := pow_add 2 _ _
        constructor
        · rcases roundShift_cases M (e0 - E).toNat with hr | hr <;> rw [hr] <;> omega
        · rcases he2 with h2 | h2
          · exact Or.inl h2
          · right
            have hsh2 : L - 1 = 52 + (e0 - E).toNat := by omega
            have hq2 : 2 ^ 52 ≤ M / 2 ^ (e0 - E).toNat := by
              rw [Nat.le_div_iff_mul_le (by positivity)]
              calc 2 ^ 52 * 2 ^ (e0 - E).toNat = 2 ^ (52 + (e0 - E).toNat) := (pow_add 2 _ _).symm
                _ = 2 ^ (L - 1) := by rw [hsh2]
                _ ≤ M := hlo
            rcases roundShift_cases M (e0 - E).toNat with hr | hr <;> rw [hr] <;> omega
    generalize (if e0 ≤ E then M * 2 ^ (E - e0).toNat else roundShift M (e0 - E).toNat) = m0
      at h hm0
    obtain ⟨hm1, hm2⟩ := hm0
    by_cases hc : m0 = 2 ^ 53
    · rw [if_pos hc] at h
      by_cases ho : 971 < e0 + 1
      · rw [if_pos ho] at h
        exact Float64.noConfusion h
      · rw [if_neg ho] at h
        injection h with h1 h2 h3
        subst h2 h3
        exact ⟨by norm_num, by omega, by omega, Or.inr (le_refl _)⟩
    · rw [if_neg hc] at h
      by_cases ho : 971 < e0
      · rw [if_pos ho] at h
        exact Float64.noConfusion h
      · rw [if_neg ho] at h
        injection h with h1 h2 h3
        subst h2 h3
        exact ⟨by omega, he0, by omega, hm2⟩

theorem Float64.mul_canonical (x y : Float64) (s : Bool) (k : Nat) (e : Int)
    (h : Float64.mul x y = .finite s k e) :
    k < 2 ^ 53 ∧ -1074 ≤ e ∧ e ≤ 971 ∧ (e = -1074 ∨ 2 ^ 52 ≤ k) := by
  cases x with
  | nan => simp [Float64.mul] at h
  | inf s =>
    cases y with
    | nan => simp [Float64.mul] at h
    | inf t => simp [Float64.mul] at h
    | finite t n f => by_cases hn : n = 0 <;> simp [Float64.mul, hn] at h
  | finite s m e =>
    cases y with
    | nan => simp [Float64.mul] at h
    | inf t => by_cases hm : m = 0 <;> simp [Float64.mul, hm] at h
    | finite t n f => exact round_canonical _ _ _ _ _ _ h

theorem copiesFloat64s_returned (st : List Float64) (m : Memory Float64) :
    returned (copiesFloat64s.Float64s st m) = st := by
  apply List.ext_getElem?
  intro i
  simp only [returned, copiesFloat64s, Slice.read, List.getElem?_map, List.getElem?_range]
  by_cases hi : i < st.length
  · simp [List.getElem?_range hi, List.getD_eq_getElem?_getD, List.getElem?_eq_getElem hi]
  · have : st.length ≤ i := by omega
    simp [List.getElem?_eq_none this]
    exact this

/-- C6.  For every wrapped benchmark and every state and memory in which it is
called, with `xs` the sequence returned by the wrapped `Float64s` (the empty one
included), `BenchmarkInMS.Float64s` returns the same slice, whose elements are then
those of `xs` each multiplied, in `float64`, by the `float64` constant `1e-6`: same
length, same order, the `i`-th element being the `float64` product of `xs[i]` and
`1e-6`; when `xs` is empty the result is empty.  The function is total, and `Unit`
reports "ms".  The factor is the `float64` nearest to one millionth,
`4722366482869645 * 2^(-72)`.  The product with it is the IEEE 754 one: when finite, it
is a canonical `float64` that differs from the exact product by at most half a unit
in its last place; a NaN stays a NaN and an infinity stays that infinity. -/
theorem C6_float64s_scales_each_sample {σ : Type} (b : Benchmark Float64 σ)
    (st : σ) (m : Memory Float64) :
    (BenchmarkInMS.Float64s float64Ops b st m).1 = (b.Float64s st m).1 ∧
    returned (BenchmarkInMS.Float64s float64Ops b st m) =
      (returned (b.Float64s st m)).map (fun x => Float64.mul x Float64.oneMillionth) ∧
    (returned (BenchmarkInMS.Float64s float64Ops b st m)).length =
      (returned (b.Float64s st m)).length ∧
    (∀ i : Nat, (returned (BenchmarkInMS.Float64s float64Ops b st m))[i]? =
      ((returned (b.Float64s st m))[i]?).map (fun x => Float64.mul x Float64.oneMillionth)) ∧
    (returned (b.Float64s st m) = [] →
      returned (BenchmarkInMS.Float64s float64Ops b st m) = []) ∧
    BenchmarkInMS.Unit = "ms" ∧
    Float64.oneMillionth = Float64.ofBits 0x3EB0C6F7A0B5ED8D ∧
    Float64.oneMillionth.value = some (4722366482869645 / 2 ^ 72) ∧
    |(4722366482869645 / 2 ^ 72 : ℚ) - 1 / 1000000| ≤ 1 / 2 ^ 73 ∧
    (∀ x v, (Float64.mul x Float64.oneMillionth).value = some v →
      ∃ vx, x.value = some vx ∧
        |v - vx * (4722366482869645 / 2 ^ 72)| ≤
          (Float64.mul x Float64.oneMillionth).halfUlp) ∧
    (∀ x s k e, Float64.mul x Float64.oneMillionth = .finite s k e →
      k < 2 ^ 53 ∧ -1074 ≤ e ∧ e ≤ 971 ∧ (e = -1074 ∨ 2 ^ 52 ≤ k)) ∧
    Float64.mul .nan Float64.oneMillionth = .nan ∧
    (∀ s, Float64.mul (.inf s) Float64.oneMillionth = .inf s) := by
  have h : returned (BenchmarkInMS.Float64s float64Ops b st m) =
      (returned (b.Float64s st m)).map (fun x => Float64.mul x Float64.oneMillionth) :=
    returned_inMS float64Ops b st m
  have hval : Float64.oneMillionth.value = some (4722366482869645 / 2 ^ 72) := by
    simp only [Float64.oneMillionth, Float64.value, Bool.false_eq_true, if_false, one_mul,
      Option.some.injEq]
    rw [zpow_neg, div_eq_mul_inv]
    norm_num
  refine ⟨rfl, h, ?_, ?_, ?_, rfl, by decide, hval, by norm_num [abs_le], ?_, ?_, rfl, ?_⟩
  · rw [h, List.length_map]
  · intro i
    rw [h, List.getElem?_map]
  · intro hnil
    rw [h, hnil]
    rfl
  · intro x v hv
    obtain ⟨vx, vy, hx, hy, hb⟩ := Float64.mul_near x Float64.oneMillionth v hv
    rw [hval] at hy
    cases hy
    exact ⟨vx, hx, hb⟩
  · intro x s k e hx
    exact Float64.mul_canonical x Float64.oneMillionth s k e hx
  · intro s
    cases s <;> rfl

theorem copiesSamples_returned (st : List ℚ) (m : Memory ℚ) :
    returned (copiesSamples.Float64s st m) = st := by
  apply List.ext_getElem?
  intro i
  simp only [returned, copiesSamples, Slice.read, List.getElem?_map, List.getElem?_range]
  by_cases hi : i < st.length
  · simp [List.getElem?_range hi, List.getD_eq_getElem?_getD, List.getElem?_eq_getElem hi]
  · have : st.length ≤ i := by omega
    simp [List.getElem?_eq_none this]
    exact this

set_option maxRecDepth 8000 in
theorem C6_float64s_scales_each_sample_witness :
    returned (copiesFloat64s.Float64s [] (fun _ => .nan)) = [] ∧
    returned (BenchmarkInMS.Float64s float64Ops copiesFloat64s [] (fun _ => .nan)) = [] ∧
    returned (BenchmarkInMS.Float64s float64Ops copiesFloat64s
        [Float64.ofBits 0x413E848000000000, Float64.ofBits 0x411E848000000000,
          Float64.ofBits 0x4008000000000000] (fun _ => .nan)) =
      [Float64.ofBits 0x4000000000000000, Float64.ofBits 0x3FE0000000000000,
        Float64.ofBits 0x3EC92A737110E454] ∧
    (Float64.mul (Float64.ofBits 0x4008000000000000) Float64.oneMillionth).value =
      some (7083549724304468 / 2 ^ 71) ∧
    (∃ vx, (Float64.ofBits 0x4008000000000000).value = some vx ∧
      |(7083549724304468 / 2 ^ 71 : ℚ) - vx * (4722366482869645 / 2 ^ 72)| ≤
        (Float64.mul (Float64.ofBits 0x4008000000000000) Float64.oneMillionth).halfUlp) ∧
    (7083549724304468 < 2 ^ 53 ∧ (-1074 : Int) ≤ -71 ∧ (-71 : Int) ≤ 971 ∧
      ((-71 : Int) = -1074 ∨ 2 ^ 52 ≤ 7083549724304468)) := by
  have hmul : Float64.mul (Float64.ofBits 0x4008000000000000) Float64.oneMillionth =
      .finite false 7083549724304468 (-71) := by decide
  have hv : (Float64.mul (Float64.ofBits 0x4008000000000000) Float64.oneMillionth).value =
      some (7083549724304468 / 2 ^ 71) := by
    rw [hmul]
    simp only [Float64.value, Bool.false_eq_true, if_false, one_mul, Option.some.injEq]
    rw [zpow_neg, div_eq_mul_inv]
    norm_num
  refine ⟨copiesFloat64s_returned [] _,
    (C6_float64s_scales_each_sample copiesFloat64s [] (fun _ => .nan)).2.2.2.2.1
      (copiesFloat64s_returned [] _), ?_, hv,
    (C6_float64s_scales_each_sample copiesFloat64s [] (fun _ => .nan)).2.2.2.2.2.2.2.2.2.1
      _ _ hv,
    (C6_float64s_scales_each_sample copiesFloat64s [] (fun _ => .nan)).2.2.2.2.2.2.2.2.2.2.1
      _ _ _ _ hmul⟩
  rw [(C6_float64s_scales_each_sample copiesFloat64s _ (fun _ => .nan)).2.1,
    copiesFloat64s_returned]
  decide

/-- C8 fails as stated: a wrapped benchmark that returns its own storage holds the
sample `1` before `BenchmarkInMS.Float64s` is called and one millionth after, so
the second call of the wrapped `Float64s` does not return the values of the first,
and neither does the second call of `BenchmarkInMS.Float64s`. -/
theorem C8_counterexample :
    returned ((ownStorage 1).Float64s () (fun _ => 1)) = [1] ∧
    returned ((ownStorage 1).Float64s
      (BenchmarkInMS.Float64s exactOps (ownStorage 1) () (fun _ => 1)).2.1
      (BenchmarkInMS.Float64s exactOps (ownStorage 1) () (fun _ => 1)).2.2) = [1 / 1000000] ∧
    returned (BenchmarkInMS.Float64s exactOps (ownStorage 1) () (fun _ => 1)) = [1 / 1000000] ∧
    returned (BenchmarkInMS.Float64s exactOps (ownStorage 1)
      (BenchmarkInMS.Float64s exactOps (ownStorage 1) () (fun _ => 1)).2.1
      (BenchmarkInMS.Float64s exactOps (ownStorage 1) () (fun _ => 1)).2.2) =
        [1 / 1000000000000] ∧
    ([1 / 1000000] : List ℚ) ≠ [1] ∧ ([1 / 1000000000000] : List ℚ) ≠ [1 / 1000000] := by
  have e : List.range 1 = [0] := rfl
  refine ⟨?_, ?_, ?_, ?_, ?_, ?_⟩
  · simp [returned, ownStorage, Slice.read, e]
  · simp [returned, ownStorage, Slice.read, BenchmarkInMS.Float64s, scaleAt, exactOps, e]
  · simp [returned, ownStorage, Slice.read, BenchmarkInMS.Float64s, scaleAt, exactOps, e]
  · simp [returned, ownStorage, Slice.read, BenchmarkInMS.Float64s, scaleAt, exactOps, e]
    norm_num
  · norm_num
  · norm_num

/-- C8, amended.  For every wrapped benchmark that keeps no reference to the slice
it returns (its later calls do not depend on what is written into that slice) and
that returns its recorded samples again when asked again: after a call of
`BenchmarkInMS.Float64s`, a second call of the wrapped `Float64s` returns the same
values as the first one, and a second call of `BenchmarkInMS.Float64s` returns the
same values as the first one. -/
theorem C8_rendering_keeps_samples {F σ : Type} (ops : Float64Ops F) (b : Benchmark F σ)
    (hcopy : b.HandsOutCopy) (hrep : b.Repeatable) (st : σ) (m : Memory F) :
    returned (b.Float64s (BenchmarkInMS.Float64s ops b st m).2.1
        (BenchmarkInMS.Float64s ops b st m).2.2) = returned (b.Float64s st m) ∧
    returned (BenchmarkInMS.Float64s ops b (BenchmarkInMS.Float64s ops b st m).2.1
        (BenchmarkInMS.Float64s ops b st m).2.2) =
      returned (BenchmarkInMS.Float64s ops b st m) := by
  have key : returned (b.Float64s (BenchmarkInMS.Float64s ops b st m).2.1
      (BenchmarkInMS.Float64s ops b st m).2.2) = returned (b.Float64s st m) := by
    have h := hcopy st m ((List.range (b.Float64s st m).1.len).foldl
      (scaleAt ops (b.Float64s st m).1) (b.Float64s st m).2.2) (by
        intro a ha
        rw [scale_foldl]
        exact if_neg ha)
    exact h.trans (hrep st m)
  refine ⟨key, ?_⟩
  rw [returned_inMS, key, returned_inMS]

theorem C8_rendering_keeps_samples_witness :
    copiesSamples.HandsOutCopy ∧ copiesSamples.Repeatable ∧
    returned (copiesSamples.Float64s
        (BenchmarkInMS.Float64s exactOps copiesSamples [3, 4] (fun _ => 0)).2.1
        (BenchmarkInMS.Float64s exactOps copiesSamples [3, 4] (fun _ => 0)).2.2) =
      returned (copiesSamples.Float64s [3, 4] (fun _ => 0)) ∧
    returned (BenchmarkInMS.Float64s exactOps copiesSamples
        (BenchmarkInMS.Float64s exactOps copiesSamples [3, 4] (fun _ => 0)).2.1
        (BenchmarkInMS.Float64s exactOps copiesSamples [3, 4] (fun _ => 0)).2.2) =
      returned (BenchmarkInMS.Float64s exactOps copiesSamples [3, 4] (fun _ => 0)) := by
  have hcopy : copiesSamples.HandsOutCopy := by
    intro st m m2 _
    rw [copiesSamples_returned, copiesSamples_returned]
  have hrep : copiesSamples.Repeatable := by
    intro st m
    rw [copiesSamples_returned, copiesSamples_returned]
    rfl
  exact ⟨hcopy, hrep, C8_rendering_keeps_samples exactOps copiesSamples hcopy hrep [3, 4]
    (fun _ => 0)⟩

end SpannerEmu
